import Mathlib

/-!
Verification of the device- and resource-management core of the `tron` renderer.

The development shallowly embeds the Rust sources:
* `src/renderer/src/managers/mesh_manager.rs` (mesh manager, growth policy, registry),
* `src/renderer/src/device.rs` (fence batch operations),
* `src/renderer/src/physical_device.rs` (feature negotiation and device creation).

Machine integers (`u64`, `usize`, `u32`) are embedded as `Nat`; the places where the
source uses checked or saturating arithmetic are mirrored explicitly.  Fallible code
returns `Except String` (for `anyhow::Result`) or a structured error type.  Code of the
repository that is not among the provided sources (the `Fence` state setters of
`resources.rs`, the mesh description types from `types.rs`) and the `range_alloc`
dependency crate are modelled from the specification; each such definition carries a
doc comment saying so.
-/

namespace Tron

/-- Half-open numeric range `start..stop`, mirroring Rust `Range<u64>` with `u64` as `Nat`. -/
structure Rng where
  start : Nat
  stop : Nat
deriving DecidableEq, Repr

/-- Rust `Range::is_empty`: the range contains no element. -/
def Rng.isEmpty (r : Rng) : Bool := decide (r.stop ≤ r.start)

/-- Byte length of a range (`range.end - range.start` in the source). -/
def Rng.size (r : Rng) : Nat := r.stop - r.start

/-- `a` lies entirely before `b` (strict ordering of disjoint ranges in a free list). -/
def Rng.before (a b : Rng) : Prop := a.stop ≤ b.start

instance (a b : Rng) : Decidable (Rng.before a b) := by
  unfold Rng.before; infer_instance

/-- Two ranges are disjoint: one ends before the other starts. -/
def Rng.disj (a b : Rng) : Prop := a.stop ≤ b.start ∨ b.stop ≤ a.start

instance (a b : Rng) : Decidable (Rng.disj a b) := by
  unfold Rng.disj; infer_instance

theorem Rng.disj_symm {a b : Rng} (h : Rng.disj a b) : Rng.disj b a := h.symm

/-- A range is disjoint from every member of a list of ranges. -/
def Rng.disjAll (r : Rng) (l : List Rng) : Prop := ∀ s ∈ l, Rng.disj r s

/-- `r` is a subrange of `f`. -/
def Rng.sub (r f : Rng) : Prop := f.start ≤ r.start ∧ r.stop ≤ f.stop

theorem Rng.disj_of_sub {r f s : Rng} (hsub : Rng.sub r f) (h : Rng.disj s f) :
    Rng.disj s r := by
  rcases hsub with ⟨h1, h2⟩
  rcases h with h | h
  · exact Or.inl (le_trans h h1)
  · exact Or.inr (le_trans h2 h)

/--
Modelled from the spec: the `range_alloc::RangeAllocator<u64>` dependency crate is not
among the provided sources.  §3: "Range allocator: a free-list over a numeric interval
`[0, capacity)` supporting allocate(size)→range, free(range), and grow(new_capacity)".
`capacity` is the source's `initial_range().end` (the initial start is always 0 here);
`free` is the free list, kept sorted by start.
-/
structure RangeAllocator where
  capacity : Nat
  free : List Rng
deriving DecidableEq, Repr

/-- Modelled from the spec: `RangeAllocator::new(0..cap)` — the whole interval is free. -/
def RangeAllocator.new (cap : Nat) : RangeAllocator := ⟨cap, [⟨0, cap⟩]⟩

/-- First-fit search: carve `size` off the start of the first free range that fits. -/
def allocGo (size : Nat) : List Rng → Option (List Rng × Rng)
  | [] => none
  | r :: rest =>
    if size ≤ r.size then
      let got : Rng := ⟨r.start, r.start + size⟩
      let rem : Rng := ⟨r.start + size, r.stop⟩
      some ((if rem.isEmpty then rest else rem :: rest), got)
    else
      (allocGo size rest).map (fun p => (r :: p.1, p.2))

/--
Modelled from the spec: `allocate_range(size)` — returns a fresh subrange of a free range
(the crate rejects zero-length requests), or fails when no free range can hold `size`.
-/
def RangeAllocator.allocate_range (a : RangeAllocator) (size : Nat) :
    Option (RangeAllocator × Rng) :=
  if size = 0 then none
  else (allocGo size a.free).map (fun p => (⟨a.capacity, p.1⟩, p.2))

/-- Insert a range into a start-sorted free list. -/
def insertRng (r : Rng) : List Rng → List Rng
  | [] => [r]
  | x :: xs => if r.start ≤ x.start then r :: x :: xs else x :: insertRng r xs

/-- Modelled from the spec: `free_range(range)` — return a range to the free list. -/
def RangeAllocator.free_range (a : RangeAllocator) (r : Rng) : RangeAllocator :=
  ⟨a.capacity, insertRng r a.free⟩

/--
Modelled from the spec: `grow_to(new_end)` — §9 "grow(new_upper_bound)" extends the
addressable interval; §8 "growing a range allocator to a larger capacity never
invalidates previously allocated ranges' offsets".  Growing is monotone: a request that
does not enlarge the interval leaves the allocator unchanged.
-/
def RangeAllocator.grow_to (a : RangeAllocator) (newEnd : Nat) : RangeAllocator :=
  if a.capacity < newEnd then ⟨newEnd, a.free ++ [⟨a.capacity, newEnd⟩]⟩ else a

/-- Well-formed allocator: free list sorted and pairwise disjoint, members non-empty
and inside `[0, capacity)`. -/
def RangeAllocator.WF (a : RangeAllocator) : Prop :=
  a.free.Pairwise Rng.before ∧ ∀ r ∈ a.free, r.start < r.stop ∧ r.stop ≤ a.capacity

/-- `r` is disjoint from every free range of `a`. -/
def RangeAllocator.disjFree (a : RangeAllocator) (r : Rng) : Prop :=
  Rng.disjAll r a.free

/--
Allocator invariant relative to a list `live` of externally held ranges: the allocator
is well-formed, the live ranges are pairwise disjoint, and every live range is
non-empty, inside `[0, capacity)`, and disjoint from the free list.
-/
def AllocInv (a : RangeAllocator) (live : List Rng) : Prop :=
  a.WF ∧ live.Pairwise Rng.disj ∧
    ∀ r ∈ live, r.start < r.stop ∧ r.stop ≤ a.capacity ∧ a.disjFree r

theorem before_disj {a b : Rng} (h : Rng.before a b) : Rng.disj a b := Or.inl h

theorem RangeAllocator.new_WF {cap : Nat} (h : 0 < cap) : (RangeAllocator.new cap).WF := by
  refine ⟨List.pairwise_singleton _ _, ?_⟩
  intro r hr
  simp only [RangeAllocator.new, List.mem_singleton] at hr
  subst hr
  exact ⟨h, le_refl _⟩

theorem allocInv_new {cap : Nat} (h : 0 < cap) : AllocInv (RangeAllocator.new cap) [] :=
  ⟨RangeAllocator.new_WF h, List.Pairwise.nil, by intro r hr; cases hr⟩

theorem allocGo_spec {size : Nat} (hsz : 0 < size) :
    ∀ (l l' : List Rng) (got : Rng),
      l.Pairwise Rng.before → (∀ x ∈ l, x.start < x.stop) →
      allocGo size l = some (l', got) →
      got.start < got.stop ∧ got.size = size ∧
      (∃ f ∈ l, Rng.sub got f) ∧
      l'.Pairwise Rng.before ∧ (∀ x ∈ l', x.start < x.stop) ∧
      (∀ x ∈ l', ∃ f ∈ l, Rng.sub x f) ∧
      (∀ x ∈ l', Rng.disj got x) := by
  intro l
  induction l with
  | nil => intro l' got _ _ h; simp [allocGo] at h
  | cons r rest ih =>
    intro l' got hpw hne h
    have hpw_rest := hpw.tail
    have hhead : ∀ x ∈ rest, Rng.before r x := by
      intro x hx; exact List.rel_of_pairwise_cons hpw hx
    have hr_ne : r.start < r.stop := hne r (List.mem_cons_self r rest)
    have hne_rest : ∀ x ∈ rest, x.start < x.stop := fun x hx => hne x (List.mem_cons_of_mem r hx)
    simp only [allocGo] at h
    by_cases hfit : size ≤ r.size
    · simp only [if_pos hfit, Option.some.injEq, Prod.mk.injEq] at h
      obtain ⟨hl', hgot⟩ := h
      have hsize : r.start + size ≤ r.stop := by
        unfold Rng.size at hfit; omega
      subst hgot
      refine ⟨by simp; omega, by simp [Rng.size], ⟨r, List.mem_cons_self r rest, ?_⟩, ?_⟩
      · exact ⟨le_refl _, hsize⟩
      by_cases hrem : (Rng.mk (r.start + size) r.stop).isEmpty
      · have hstop : r.stop ≤ r.start + size := by
          simpa [Rng.isEmpty] using hrem
        simp only [if_pos hrem] at hl'
        subst hl'
        refine ⟨hpw_rest, hne_rest, fun x hx => ⟨x, List.mem_cons_of_mem r hx, le_refl _, le_refl _⟩,
          fun x hx => ?_⟩
        have := hhead x hx
        unfold Rng.before at this
        exact Or.inl (by simp; omega)
      · have hstop : r.start + size < r.stop := by
          simp [Rng.isEmpty] at hrem; omega
        simp only [if_neg hrem] at hl'
        subst hl'
        refine ⟨?_, ?_, ?_, ?_⟩
        · refine List.Pairwise.cons ?_ hpw_rest
          intro x hx
          have := hhead x hx
          unfold Rng.before at this ⊢
          simp; omega
        · intro x hx
          rcases List.mem_cons.mp hx with h | h
          · subst h; simpa using hstop
          · exact hne_rest x h
        · intro x hx
          rcases List.mem_cons.mp hx with h | h
          · subst h
            exact ⟨r, List.mem_cons_self r rest, Nat.le_add_right _ _, le_refl _⟩
          · exact ⟨x, List.mem_cons_of_mem r h, le_refl _, le_refl _⟩
        · intro x hx
          rcases List.mem_cons.mp hx with h | h
          · subst h; exact Or.inl (by simp [Rng.before])
          · have := hhead x h
            unfold Rng.before at this
            exact Or.inl (by simp; omega)
    · simp only [if_neg hfit, Option.map_eq_some'] at h
      obtain ⟨⟨l₀, got₀⟩, hrec, heq⟩ := h
      simp only [Prod.mk.injEq] at heq
      obtain ⟨hl', hgot⟩ := heq
      subst hl'; subst hgot
      obtain ⟨h1, h2, ⟨f, hf, hsub⟩, h4, h5, h6, h7⟩ :=
        ih l₀ got₀ hpw_rest hne_rest hrec
      refine ⟨h1, h2, ⟨f, List.mem_cons_of_mem r hf, hsub⟩, ?_, ?_, ?_, ?_⟩
      · refine List.Pairwise.cons ?_ h4
        intro y hy
        obtain ⟨g, hg, hysub⟩ := h6 y hy
        have := hhead g hg
        unfold Rng.before at this ⊢
        have := hysub.1
        omega
      · intro x hx
        rcases List.mem_cons.mp hx with h | h
        · rw [h]; exact hr_ne
        · exact h5 x h
      · intro x hx
        rcases List.mem_cons.mp hx with h | h
        · refine ⟨r, List.mem_cons_self r rest, ?_⟩
          rw [h]
          exact ⟨le_refl _, le_refl _⟩
        · obtain ⟨g, hg, hs⟩ := h6 x h
          exact ⟨g, List.mem_cons_of_mem r hg, hs⟩
      · intro x hx
        rcases List.mem_cons.mp hx with h | h
        · rw [h]
          have := hhead f hf
          unfold Rng.before at this
          have := hsub.1
          exact Or.inr (by omega)
        · exact h7 x h

theorem allocate_range_inv {a : RangeAllocator} {live : List Rng} {size : Nat}
    {a' : RangeAllocator} {got : Rng}
    (hinv : AllocInv a live)
    (h : a.allocate_range size = some (a', got)) :
    AllocInv a' (got :: live) ∧ a'.capacity = a.capacity ∧
      got.size = size ∧ got.start < got.stop ∧ got.stop ≤ a.capacity := by
  obtain ⟨⟨hpw, hmem⟩, hlpw, hlive⟩ := hinv
  unfold RangeAllocator.allocate_range at h
  by_cases hz : size = 0
  · simp [hz] at h
  simp only [if_neg hz, Option.map_eq_some'] at h
  obtain ⟨⟨l', got₀⟩, hgo, heq⟩ := h
  simp only [Prod.mk.injEq] at heq
  obtain ⟨ha', hgot⟩ := heq
  subst hgot
  obtain ⟨hg1, hg2, ⟨f, hf, hsub⟩, hg4, hg5, hg6, hg7⟩ :=
    allocGo_spec (Nat.pos_of_ne_zero hz) a.free l' got₀
      hpw (fun x hx => (hmem x hx).1) hgo
  have hcap' : a'.capacity = a.capacity := by rw [← ha']
  have hfree' : a'.free = l' := by rw [← ha']
  have hgotstop : got₀.stop ≤ a.capacity := le_trans hsub.2 (hmem f hf).2
  refine ⟨⟨⟨?_, ?_⟩, ?_, ?_⟩, hcap', hg2, hg1, hgotstop⟩
  · rw [hfree']; exact hg4
  · rw [hfree']
    intro x hx
    obtain ⟨g, hg, hs⟩ := hg6 x hx
    exact ⟨hg5 x hx, hcap' ▸ le_trans hs.2 (hmem g hg).2⟩
  · refine List.Pairwise.cons ?_ hlpw
    intro s hs
    have hdf := (hlive s hs).2.2 f hf
    exact (Rng.disj_of_sub hsub hdf).symm
  · intro x hx
    rcases List.mem_cons.mp hx with h | h
    · subst h
      refine ⟨hg1, hcap' ▸ hgotstop, ?_⟩
      intro s hs
      rw [hfree'] at hs
      exact hg7 s hs
    · obtain ⟨h1, h2, h3⟩ := hlive x h
      refine ⟨h1, hcap' ▸ h2, ?_⟩
      intro s hs
      rw [hfree'] at hs
      obtain ⟨g, hg, hsubs⟩ := hg6 s hs
      exact Rng.disj_of_sub hsubs (h3 g hg)

theorem insertRng_perm (r : Rng) : ∀ l : List Rng, List.Perm (insertRng r l) (r :: l) := by
  intro l
  induction l with
  | nil => exact List.Perm.refl _
  | cons x xs ih =>
    simp only [insertRng]
    by_cases h : r.start ≤ x.start
    · rw [if_pos h]
    · rw [if_neg h]
      exact (ih.cons x).trans (List.Perm.swap r x xs)

theorem insertRng_pairwise {r : Rng} :
    ∀ {l : List Rng}, l.Pairwise Rng.before → (∀ x ∈ l, x.start < x.stop) →
      r.start < r.stop → Rng.disjAll r l →
      List.Pairwise Rng.before (insertRng r l) := by
  intro l
  induction l with
  | nil => intro _ _ _ _; exact List.pairwise_singleton _ _
  | cons x xs ih =>
    intro hpw hne hr hd
    have hx_ne : x.start < x.stop := hne x (List.mem_cons_self x xs)
    have hdx : Rng.disj r x := hd x (List.mem_cons_self x xs)
    simp only [insertRng]
    by_cases h : r.start ≤ x.start
    · rw [if_pos h]
      have hbefore : Rng.before r x := by
        rcases hdx with h' | h'
        · exact h'
        · exact absurd h' (by omega)
      refine List.Pairwise.cons ?_ hpw
      intro y hy
      rcases List.mem_cons.mp hy with h' | h'
      · rw [h']; exact hbefore
      · have h2 := List.rel_of_pairwise_cons hpw h'
        unfold Rng.before at hbefore h2 ⊢
        omega
    · rw [if_neg h]
      refine List.Pairwise.cons ?_ (ih hpw.tail (fun y hy => hne y (List.mem_cons_of_mem x hy))
        hr (fun y hy => hd y (List.mem_cons_of_mem x hy)))
      intro y hy
      have hy' := (insertRng_perm r xs).mem_iff.mp hy
      rcases List.mem_cons.mp hy' with h' | h'
      · rw [h']
        rcases hdx with h'' | h''
        · exact absurd h'' (by omega)
        · exact h''
      · exact List.rel_of_pairwise_cons hpw h'

theorem free_range_inv {a : RangeAllocator} {r : Rng}
    (hwf : a.WF) (hne : r.start < r.stop) (hcap : r.stop ≤ a.capacity)
    (hd : a.disjFree r) :
    (a.free_range r).WF ∧ (a.free_range r).capacity = a.capacity ∧
      ((a.free_range r).free.Perm (r :: a.free)) ∧
      (∀ s, Rng.disj s r → a.disjFree s → (a.free_range r).disjFree s) := by
  obtain ⟨hpw, hmem⟩ := hwf
  refine ⟨⟨?_, ?_⟩, rfl, insertRng_perm r a.free, ?_⟩
  · exact insertRng_pairwise hpw (fun x hx => (hmem x hx).1) hne hd
  · intro x hx
    have := (insertRng_perm r a.free).mem_iff.mp hx
    rcases List.mem_cons.mp this with h | h
    · subst h; exact ⟨hne, hcap⟩
    · exact hmem x h
  · intro s hds hdf x hx
    have := (insertRng_perm r a.free).mem_iff.mp hx
    rcases List.mem_cons.mp this with h | h
    · subst h; exact hds
    · exact hdf x h

theorem grow_to_inv {a : RangeAllocator} {c : Nat} (hwf : a.WF) :
    (a.grow_to c).WF ∧ a.capacity ≤ (a.grow_to c).capacity ∧
      (∀ s, s.stop ≤ a.capacity → a.disjFree s → (a.grow_to c).disjFree s) := by
  obtain ⟨hpw, hmem⟩ := hwf
  unfold RangeAllocator.grow_to
  by_cases h : a.capacity < c
  · simp only [if_pos h]
    refine ⟨⟨?_, ?_⟩, le_of_lt h, ?_⟩
    · rw [List.pairwise_append]
      refine ⟨hpw, List.pairwise_singleton _ _, ?_⟩
      intro x hx y hy
      simp only [List.mem_singleton] at hy
      subst hy
      exact (hmem x hx).2
    · intro x hx
      rcases List.mem_append.mp hx with h' | h'
      · exact ⟨(hmem x h').1, le_trans (hmem x h').2 (le_of_lt h)⟩
      · simp only [List.mem_singleton] at h'
        subst h'
        exact ⟨h, le_refl _⟩
    · intro s hcap hdf x hx
      rcases List.mem_append.mp hx with h' | h'
      · exact hdf x h'
      · simp only [List.mem_singleton] at h'
        subst h'
        exact Or.inl hcap
  · simp only [if_neg h]
    exact ⟨⟨hpw, hmem⟩, le_refl _, fun s _ hdf => hdf⟩

theorem allocInv_grow {a : RangeAllocator} {live : List Rng} {c : Nat}
    (hinv : AllocInv a live) : AllocInv (a.grow_to c) live := by
  obtain ⟨hwf, hlpw, hlive⟩ := hinv
  obtain ⟨hwf', hcap, hdf⟩ := grow_to_inv hwf
  refine ⟨hwf', hlpw, fun r hr => ?_⟩
  obtain ⟨h1, h2, h3⟩ := hlive r hr
  exact ⟨h1, le_trans h2 hcap, hdf r h2 h3⟩

theorem allocInv_free_cons {a : RangeAllocator} {r : Rng} {rest : List Rng}
    (hinv : AllocInv a (r :: rest)) : AllocInv (a.free_range r) rest := by
  obtain ⟨hwf, hlpw, hlive⟩ := hinv
  obtain ⟨h1, h2, h3⟩ := hlive r (List.mem_cons_self r rest)
  obtain ⟨hwf', hcap, _, hdf⟩ := free_range_inv hwf h1 h2 h3
  refine ⟨hwf', hlpw.tail, fun s hs => ?_⟩
  obtain ⟨hs1, hs2, hs3⟩ := hlive s (List.mem_cons_of_mem r hs)
  have hdisj : Rng.disj s r := (List.rel_of_pairwise_cons hlpw hs).symm
  exact ⟨hs1, hcap ▸ hs2, hdf s hdisj hs3⟩

theorem disj_symmetric : Symmetric Rng.disj := fun _ _ h => h.symm

theorem allocInv_subperm {a : RangeAllocator} {L L' : List Rng}
    (hinv : AllocInv a L) (hsub : List.Subperm L' L) : AllocInv a L' := by
  obtain ⟨hwf, hlpw, hlive⟩ := hinv
  obtain ⟨l, hperm, hsl⟩ := hsub
  refine ⟨hwf, ?_, fun r hr => hlive r (hsl.subset (hperm.mem_iff.mpr hr))⟩
  exact ((List.Perm.pairwise_iff (fun h => Rng.disj_symm h) hperm).mp (hlpw.sublist hsl))

/-! ## Mesh manager (`src/renderer/src/managers/mesh_manager.rs`) -/

/-- `INDEX_TYPE.index_size()` for `gfx::IndexType::U32` (mesh_manager.rs:373-374). -/
def INDEX_SIZE : Nat := 4

def INITIAL_VERTICES_CAPACITY : Nat := 2 ^ 16

def INITIAL_INDEX_COUNT : Nat := 2 ^ 16

def U64_LIMIT : Nat := 2 ^ 64

/-- Rust `u64::checked_add`. -/
def checkedAdd (a b : Nat) : Option Nat :=
  if a + b < U64_LIMIT then some (a + b) else none

/-- Rust `u64::saturating_mul`. -/
def saturatingMul (a b : Nat) : Nat := min (a * b) (U64_LIMIT - 1)

/-- Doubling loop computing the least power of two ≥ `n` (fuel-driven so it reduces). -/
def nextPow2Go (n : Nat) : Nat → Nat → Nat
  | 0, power => power
  | fuel + 1, power => if power < n then nextPow2Go n fuel (power * 2) else power

/-- Rust `u64::checked_next_power_of_two`: `none` models the overflowing case. -/
def checkedNextPowerOfTwo (n : Nat) : Option Nat :=
  if n ≤ 2 ^ 63 then some (nextPow2Go n 64 1) else none

/-- Modelled from the spec: `VertexAttributeKind` lives in `types.rs`, which is not among
the provided sources; an opaque attribute tag. -/
abbrev VertexAttributeKind := Nat

/-- Modelled from the spec: the `Mesh` description type from `types.rs` (not among the
provided sources); §6 "mesh description `{ vertex_count, per-attribute byte buffers,
index buffer }`".  Each attribute byte buffer is abstracted to its kind and its byte
length (`byte_len()`), the index buffer to its element count (`indices.len()`). -/
structure Mesh where
  vertex_count : Nat
  attribute_data : List (VertexAttributeKind × Nat)
  index_count : Nat

/-- `GpuMesh` (mesh_manager.rs:300-304). -/
structure GpuMesh where
  vertex_count : Nat
  vertex_attribute_ranges : List (VertexAttributeKind × Rng)
  indices_range : Rng
deriving DecidableEq, Repr

/-- `GpuMesh::new_empty` (mesh_manager.rs:306-313). -/
def GpuMesh.new_empty : GpuMesh := ⟨0, [], ⟨0, 0⟩⟩

/-- `gfx::BufferCopy` — source offset, destination offset, byte size. -/
structure BufferCopy where
  src_offset : Nat
  dst_offset : Nat
  size : Nat
deriving DecidableEq, Repr

/-- Copy commands recorded on the caller-supplied `gfx::Encoder`: the two batched upload
copies of `upload_mesh`, and the old-buffer-to-new-buffer copies of `realloc`. -/
inductive EncCmd
  | uploadVertices (regions : List BufferCopy)
  | uploadIndices (regions : List BufferCopy)
  | growCopyVertices (region : BufferCopy)
  | growCopyIndices (region : BufferCopy)
deriving DecidableEq, Repr

/-- Observable side effects of mesh operations: the encoder command list (in recording
order) and the byte sizes of the staging buffers created by `create_mappable_buffer`. -/
structure Effects where
  encoder : List EncCmd
  stagingAllocs : List Nat
deriving DecidableEq, Repr

def Effects.empty : Effects := ⟨[], []⟩

/-- The `device.limits().max_storage_buffer_range` value read by `realloc`. -/
structure DeviceLimits where
  max_storage_buffer_range : Nat

/-- `MeshBuffers` (mesh_manager.rs:332-335), abstracted to the byte sizes of the two
live buffers. -/
structure MeshBuffers where
  vertices : Nat
  indices : Nat
deriving DecidableEq, Repr

/-- `MeshManager` (mesh_manager.rs:8-13). -/
structure MeshManager where
  buffers : MeshBuffers
  vertex_alloc : RangeAllocator
  index_alloc : RangeAllocator
  registry : List (Option GpuMesh)

/-- `MeshManager::new` (mesh_manager.rs:16-30).  The source passes `INITIAL_INDEX_COUNT`
for both arguments of `MeshBuffers::new` (vertex byte size and index count). -/
def MeshManager.new : MeshManager :=
  { buffers := ⟨INITIAL_INDEX_COUNT, INITIAL_INDEX_COUNT * INDEX_SIZE⟩
    vertex_alloc := RangeAllocator.new INITIAL_VERTICES_CAPACITY
    index_alloc := RangeAllocator.new INITIAL_INDEX_COUNT
    registry := [] }

/--
`MeshManager::realloc` (mesh_manager.rs:208-297).  Mirrors the source exactly; in
particular line 224 of the source reads `self.index_alloc.initial_range().end` as
`current_vertices_size`.  The `expect` panics on checked-arithmetic overflow are
modelled as errors.  Both validation steps happen before either buffer replacement is
applied, and the vertex update is applied before the index update, as in the source.
-/
def reallocComputeVertices (dev : DeviceLimits) (m : MeshManager)
    (additional_vertices_capacity : Nat) : Except String (Option Nat) :=
  if 0 < additional_vertices_capacity then
    match (checkedAdd m.index_alloc.capacity additional_vertices_capacity).bind
        checkedNextPowerOfTwo with
    | none => Except.error "too many vertices"
    | some s =>
      let new_vertices_size := min s dev.max_storage_buffer_range
      if m.index_alloc.capacity < new_vertices_size then
        Except.ok (some new_vertices_size)
      else Except.error "max vertex buffer size exceeded"
  else Except.ok none

def reallocComputeIndices (dev : DeviceLimits) (m : MeshManager)
    (additional_index_count : Nat) : Except String (Option Nat) :=
  let current_indices_size := saturatingMul m.index_alloc.capacity INDEX_SIZE
  if 0 < additional_index_count then
    match (checkedAdd current_indices_size
        (saturatingMul additional_index_count INDEX_SIZE)).bind
        checkedNextPowerOfTwo with
    | none => Except.error "too many indices"
    | some s =>
      let new_indices_size := min s dev.max_storage_buffer_range
      if current_indices_size < new_indices_size then
        if new_indices_size % INDEX_SIZE = 0 then Except.ok (some new_indices_size)
        else Except.error "unaligned index buffer size"
      else Except.error "max index buffer size exceeded"
  else Except.ok none

def reallocApplyVertices (st : MeshManager × Effects) (newV : Option Nat)
    (current_vertices_size : Nat) : MeshManager × Effects :=
  match newV with
  | some new_vertices_size =>
    ({ st.1 with
        buffers := { st.1.buffers with vertices := new_vertices_size },
        vertex_alloc := st.1.vertex_alloc.grow_to new_vertices_size },
     { st.2 with encoder := st.2.encoder ++
        [EncCmd.growCopyVertices ⟨0, 0, current_vertices_size⟩] })
  | none => st

def reallocApplyIndices (st : MeshManager × Effects) (newI : Option Nat)
    (current_indices_size : Nat) : MeshManager × Effects :=
  match newI with
  | some new_indices_size =>
    ({ st.1 with
        buffers := { st.1.buffers with indices := new_indices_size },
        index_alloc := st.1.index_alloc.grow_to (new_indices_size / INDEX_SIZE) },
     { st.2 with encoder := st.2.encoder ++
        [EncCmd.growCopyIndices ⟨0, 0, current_indices_size⟩] })
  | none => st

def MeshManager.realloc (dev : DeviceLimits) (m : MeshManager) (eff : Effects)
    (additional_vertices_capacity additional_index_count : Nat) :
    MeshManager × Effects × Except String Unit :=
  if additional_vertices_capacity = 0 ∧ additional_index_count = 0 then
    (m, eff, Except.ok ())
  else
    match reallocComputeVertices dev m additional_vertices_capacity with
    | Except.error e => (m, eff, Except.error e)
    | Except.ok newV =>
      match reallocComputeIndices dev m additional_index_count with
      | Except.error e => (m, eff, Except.error e)
      | Except.ok newI =>
        let step1 := reallocApplyVertices (m, eff) newV m.index_alloc.capacity
        let step2 := reallocApplyIndices step1 newI
          (saturatingMul m.index_alloc.capacity INDEX_SIZE)
        (step2.1, step2.2, Except.ok ())

/-- `MeshManager::alloc_range_for_vertices` (mesh_manager.rs:172-188); the failing second
`allocate_range` models the source's `expect` panic. -/
def MeshManager.alloc_range_for_vertices (dev : DeviceLimits) (m : MeshManager)
    (eff : Effects) (size : Nat) : MeshManager × Effects × Except String Rng :=
  match m.vertex_alloc.allocate_range size with
  | some (a, range) => ({ m with vertex_alloc := a }, eff, Except.ok range)
  | none =>
    match m.realloc dev eff size 0 with
    | (m1, eff1, Except.error e) => (m1, eff1, Except.error e)
    | (m1, eff1, Except.ok _) =>
      match m1.vertex_alloc.allocate_range size with
      | some (a, range) => ({ m1 with vertex_alloc := a }, eff1, Except.ok range)
      | none => (m1, eff1, Except.error "vertex_alloc must grow after realloc")

/-- `MeshManager::alloc_range_for_indices` (mesh_manager.rs:190-206). -/
def MeshManager.alloc_range_for_indices (dev : DeviceLimits) (m : MeshManager)
    (eff : Effects) (count : Nat) : MeshManager × Effects × Except String Rng :=
  match m.index_alloc.allocate_range count with
  | some (a, range) => ({ m with index_alloc := a }, eff, Except.ok range)
  | none =>
    match m.realloc dev eff 0 count with
    | (m1, eff1, Except.error e) => (m1, eff1, Except.error e)
    | (m1, eff1, Except.ok _) =>
      match m1.index_alloc.allocate_range count with
      | some (a, range) => ({ m1 with index_alloc := a }, eff1, Except.ok range)
      | none => (m1, eff1, Except.error "index_alloc must grow after realloc")

/-- The per-attribute loop of `upload_mesh` (mesh_manager.rs:81-103): each attribute is
copied into the staging buffer at a running offset and gets a vertex range; a copy
descriptor `(src_offset, dst_offset, size)` is accumulated per attribute. -/
def uploadAttrs (dev : DeviceLimits) :
    MeshManager → Effects → List (VertexAttributeKind × Nat) → Nat →
    MeshManager × Effects ×
      Except String (List (VertexAttributeKind × Rng) × List BufferCopy × Nat)
  | m, eff, [], offset => (m, eff, Except.ok ([], [], offset))
  | m, eff, (kind, len) :: rest, offset =>
    match m.alloc_range_for_vertices dev eff len with
    | (m1, eff1, Except.error e) => (m1, eff1, Except.error e)
    | (m1, eff1, Except.ok range) =>
      match uploadAttrs dev m1 eff1 rest (offset + len) with
      | (m2, eff2, Except.error e) => (m2, eff2, Except.error e)
      | (m2, eff2, Except.ok (ranges, copies, final)) =>
        (m2, eff2, Except.ok ((kind, range) :: ranges,
          ⟨offset, range.start, range.size⟩ :: copies, final))

/-- `MeshManager::upload_mesh` (mesh_manager.rs:36-147). -/
def MeshManager.upload_mesh (dev : DeviceLimits) (m : MeshManager) (eff : Effects)
    (mesh : Mesh) : MeshManager × Effects × Except String GpuMesh :=
  if mesh.vertex_count = 0 ∨ mesh.index_count = 0 then
    (m, eff, Except.ok GpuMesh.new_empty)
  else
    let total_attribute_size := (mesh.attribute_data.map (fun a => a.2)).sum
    let total_index_size := mesh.index_count * INDEX_SIZE
    let eff0 : Effects := { eff with stagingAllocs :=
      eff.stagingAllocs ++ [total_attribute_size + total_index_size] }
    match uploadAttrs dev m eff0 mesh.attribute_data 0 with
    | (m1, eff1, Except.error e) => (m1, eff1, Except.error e)
    | (m1, eff1, Except.ok (vertex_attribute_ranges, vertex_attribute_copies, offset)) =>
      match m1.alloc_range_for_indices dev eff1 mesh.index_count with
      | (m2, eff2, Except.error e) => (m2, eff2, Except.error e)
      | (m2, eff2, Except.ok indices_range) =>
        let indices_copy : BufferCopy := ⟨offset, indices_range.start, indices_range.size⟩
        let eff3 : Effects := { eff2 with encoder := eff2.encoder ++
          [EncCmd.uploadVertices vertex_attribute_copies,
           EncCmd.uploadIndices [indices_copy]] }
        (m2, eff3, Except.ok ⟨mesh.vertex_count, vertex_attribute_ranges, indices_range⟩)

/-- `self.registry.resize_with(index + 1, || None)` followed by `registry[index] = Some`. -/
def setSlot : List (Option GpuMesh) → Nat → GpuMesh → List (Option GpuMesh)
  | [], 0, g => [some g]
  | [], n + 1, g => none :: setSlot [] n g
  | _ :: xs, 0, g => some g :: xs
  | x :: xs, n + 1, g => x :: setSlot xs n g

/-- `MeshManager::insert` (mesh_manager.rs:149-155). -/
def MeshManager.insert (m : MeshManager) (index : Nat) (g : GpuMesh) : MeshManager :=
  { m with registry := setSlot m.registry index g }

/-- `self.registry[index]` combined with `.take()`: `none` covers both the out-of-range
panic and the absent slot. -/
def getSlot (reg : List (Option GpuMesh)) (index : Nat) : Option GpuMesh :=
  reg.getD index none

def clearSlot : List (Option GpuMesh) → Nat → List (Option GpuMesh)
  | [], _ => []
  | _ :: xs, 0 => none :: xs
  | x :: xs, n + 1 => x :: clearSlot xs n

/-- The range-returning loop of `remove`: every non-empty range goes back to the
allocator, empty ranges are skipped. -/
def freeRanges : RangeAllocator → List Rng → RangeAllocator
  | a, [] => a
  | a, r :: rs => freeRanges (if r.isEmpty then a else a.free_range r) rs

/-- `MeshManager::remove` (mesh_manager.rs:157-170).  The `expect("handle must be
valid")` panic (absent slot or out-of-range index) is modelled as an error leaving the
state unchanged. -/
def MeshManager.remove (m : MeshManager) (index : Nat) :
    MeshManager × Except String Unit :=
  match getSlot m.registry index with
  | none => (m, Except.error "handle must be valid")
  | some mesh =>
    ({ m with
        registry := clearSlot m.registry index,
        vertex_alloc :=
          freeRanges m.vertex_alloc (mesh.vertex_attribute_ranges.map (fun p => p.2)),
        index_alloc :=
          if mesh.indices_range.isEmpty then m.index_alloc
          else m.index_alloc.free_range mesh.indices_range },
     Except.ok ())

/-- Client operations driving the mesh manager (§4.4): upload and register the returned
record, upload and drop the record, remove, bare growth. -/
inductive MeshOp
  | upload (mesh : Mesh) (handle : Nat)
  | uploadOnly (mesh : Mesh)
  | removeOp (handle : Nat)
  | reallocOp (additional_vertices additional_indices : Nat)

def execOp (dev : DeviceLimits) (st : MeshManager × Effects) (op : MeshOp) :
    MeshManager × Effects :=
  match op with
  | MeshOp.upload mesh handle =>
    match st.1.upload_mesh dev st.2 mesh with
    | (m, eff, Except.ok g) => (m.insert handle g, eff)
    | (m, eff, Except.error _) => (m, eff)
  | MeshOp.uploadOnly mesh =>
    match st.1.upload_mesh dev st.2 mesh with
    | (m, eff, _) => (m, eff)
  | MeshOp.removeOp handle => ((st.1.remove handle).1, st.2)
  | MeshOp.reallocOp av ai =>
    match st.1.realloc dev st.2 av ai with
    | (m, eff, _) => (m, eff)

/-- Every state of the mesh manager reachable by a client: `new` followed by a sequence
of operations. -/
def execOps (dev : DeviceLimits) (ops : List MeshOp) : MeshManager × Effects :=
  ops.foldl (execOp dev) (MeshManager.new, Effects.empty)

/-- The non-empty vertex-attribute byte ranges held by one registry slot. -/
def slotV : Option GpuMesh → List Rng
  | none => []
  | some g => (g.vertex_attribute_ranges.map (fun p => p.2)).filter (fun r => !r.isEmpty)

/-- The non-empty index byte range held by one registry slot, if any. -/
def slotI : Option GpuMesh → List Rng
  | none => []
  | some g => if g.indices_range.isEmpty then [] else [g.indices_range]

/-- Concatenation of a per-slot range extraction over the registry. -/
def liveF (f : Option GpuMesh → List Rng) : List (Option GpuMesh) → List Rng
  | [] => []
  | slot :: rest => f slot ++ liveF f rest

/-- All non-empty vertex ranges held by registered GPU mesh records. -/
def liveV : List (Option GpuMesh) → List Rng := liveF slotV

/-- All non-empty index ranges held by registered GPU mesh records. -/
def liveI : List (Option GpuMesh) → List Rng := liveF slotI

/-- The mesh-manager invariant, generalised by in-flight ranges (allocated, handed to the
caller inside a `GpuMesh`, but not yet registered): both allocators are consistent with
the ranges reachable from the registry plus the in-flight ones. -/
def MeshInvE (m : MeshManager) (extraV extraI : List Rng) : Prop :=
  AllocInv m.vertex_alloc (extraV ++ liveV m.registry) ∧
    AllocInv m.index_alloc (extraI ++ liveI m.registry)

/-- The plain mesh-manager invariant of §3. -/
def MeshInv (m : MeshManager) : Prop := MeshInvE m [] []

theorem applyVertices_invE {st : MeshManager × Effects} {newV : Option Nat} {cvs : Nat}
    {extraV extraI : List Rng} (hinv : MeshInvE st.1 extraV extraI) :
    MeshInvE (reallocApplyVertices st newV cvs).1 extraV extraI ∧
      (reallocApplyVertices st newV cvs).1.registry = st.1.registry := by
  obtain ⟨hv, hi⟩ := hinv
  cases newV with
  | none => exact ⟨⟨hv, hi⟩, rfl⟩
  | some s => exact ⟨⟨allocInv_grow hv, hi⟩, rfl⟩

theorem applyIndices_invE {st : MeshManager × Effects} {newI : Option Nat} {cis : Nat}
    {extraV extraI : List Rng} (hinv : MeshInvE st.1 extraV extraI) :
    MeshInvE (reallocApplyIndices st newI cis).1 extraV extraI ∧
      (reallocApplyIndices st newI cis).1.registry = st.1.registry := by
  obtain ⟨hv, hi⟩ := hinv
  cases newI with
  | none => exact ⟨⟨hv, hi⟩, rfl⟩
  | some s => exact ⟨⟨hv, allocInv_grow hi⟩, rfl⟩

theorem realloc_invE {dev : DeviceLimits} {m : MeshManager} {eff : Effects}
    {av ai : Nat} {extraV extraI : List Rng} (hinv : MeshInvE m extraV extraI) :
    MeshInvE (m.realloc dev eff av ai).1 extraV extraI ∧
      (m.realloc dev eff av ai).1.registry = m.registry := by
  unfold MeshManager.realloc
  split
  · exact ⟨hinv, rfl⟩
  · split
    · exact ⟨hinv, rfl⟩
    · split
      · exact ⟨hinv, rfl⟩
      · dsimp only
        rename_i xV newV hV xI newI hI
        have h1 := @applyVertices_invE (m, eff) newV
          m.index_alloc.capacity extraV extraI hinv
        have h2 := @applyIndices_invE (reallocApplyVertices (m, eff) newV
          m.index_alloc.capacity) newI
          (saturatingMul m.index_alloc.capacity INDEX_SIZE) extraV extraI h1.1
        exact ⟨h2.1, h2.2.trans h1.2⟩

theorem alloc_vertices_invE {dev : DeviceLimits} {m : MeshManager} {eff : Effects}
    {size : Nat} {m' : MeshManager} {eff' : Effects} {out : Except String Rng}
    {extraV extraI : List Rng} (hinv : MeshInvE m extraV extraI)
    (h : m.alloc_range_for_vertices dev eff size = (m', eff', out)) :
    m'.registry = m.registry ∧
      (∀ e, out = Except.error e → MeshInvE m' extraV extraI) ∧
      (∀ r, out = Except.ok r → MeshInvE m' (r :: extraV) extraI) := by
  unfold MeshManager.alloc_range_for_vertices at h
  split at h
  · rename_i a range halloc
    obtain ⟨hm, he, hout⟩ := Prod.mk.injEq .. |>.mp h |>.imp id (Prod.mk.injEq .. |>.mp)
    subst hm
    refine ⟨rfl, fun e he' => ?_, fun r hr => ?_⟩
    · rw [← hout] at he'; cases he'
    · rw [← hout] at hr
      obtain ⟨hrange⟩ := hr
      obtain ⟨hai, _, _, _, _⟩ := allocate_range_inv
        hinv.1 halloc
      exact ⟨hai, hinv.2⟩
  · rename_i hfail
    split at h
    · rename_i m1 eff1 e heq
      obtain ⟨hm, he, hout⟩ := Prod.mk.injEq .. |>.mp h |>.imp id (Prod.mk.injEq .. |>.mp)
      subst hm
      have hre := @realloc_invE dev m eff size 0 extraV extraI hinv
      rw [heq] at hre
      refine ⟨hre.2, fun e' he' => hre.1, fun r hr => ?_⟩
      · rw [← hout] at hr; cases hr
    · rename_i m1 eff1 u heq
      have hre := @realloc_invE dev m eff size 0 extraV extraI hinv
      rw [heq] at hre
      split at h
      · rename_i a range halloc
        obtain ⟨hm, he, hout⟩ := Prod.mk.injEq .. |>.mp h |>.imp id (Prod.mk.injEq .. |>.mp)
        subst hm
        refine ⟨hre.2, fun e he' => ?_, fun r hr => ?_⟩
        · rw [← hout] at he'; cases he'
        · rw [← hout] at hr
          obtain ⟨hrange⟩ := hr
          obtain ⟨hai, _, _, _, _⟩ := allocate_range_inv hre.1.1 halloc
          refine ⟨?_, hre.1.2⟩
          rw [hre.2]
          rw [hre.2] at hai
          exact hai
      · rename_i hfail2
        obtain ⟨hm, he, hout⟩ := Prod.mk.injEq .. |>.mp h |>.imp id (Prod.mk.injEq .. |>.mp)
        subst hm
        refine ⟨hre.2, fun e he' => hre.1, fun r hr => ?_⟩
        · rw [← hout] at hr; cases hr

theorem alloc_indices_invE {dev : DeviceLimits} {m : MeshManager} {eff : Effects}
    {count : Nat} {m' : MeshManager} {eff' : Effects} {out : Except String Rng}
    {extraV extraI : List Rng} (hinv : MeshInvE m extraV extraI)
    (h : m.alloc_range_for_indices dev eff count = (m', eff', out)) :
    m'.registry = m.registry ∧
      (∀ e, out = Except.error e → MeshInvE m' extraV extraI) ∧
      (∀ r, out = Except.ok r → MeshInvE m' extraV (r :: extraI)) := by
  unfold MeshManager.alloc_range_for_indices at h
  split at h
  · rename_i a range halloc
    obtain ⟨hm, he, hout⟩ := Prod.mk.injEq .. |>.mp h |>.imp id (Prod.mk.injEq .. |>.mp)
    subst hm
    refine ⟨rfl, fun e he' => ?_, fun r hr => ?_⟩
    · rw [← hout] at he'; cases he'
    · rw [← hout] at hr
      obtain ⟨hrange⟩ := hr
      obtain ⟨hai, _, _, _, _⟩ := allocate_range_inv
        hinv.2 halloc
      exact ⟨hinv.1, hai⟩
  · rename_i hfail
    split at h
    · rename_i m1 eff1 e heq
      obtain ⟨hm, he, hout⟩ := Prod.mk.injEq .. |>.mp h |>.imp id (Prod.mk.injEq .. |>.mp)
      subst hm
      have hre := @realloc_invE dev m eff 0 count extraV extraI hinv
      rw [heq] at hre
      refine ⟨hre.2, fun e' he' => hre.1, fun r hr => ?_⟩
      · rw [← hout] at hr; cases hr
    · rename_i m1 eff1 u heq
      have hre := @realloc_invE dev m eff 0 count extraV extraI hinv
      rw [heq] at hre
      split at h
      · rename_i a range halloc
        obtain ⟨hm, he, hout⟩ := Prod.mk.injEq .. |>.mp h |>.imp id (Prod.mk.injEq .. |>.mp)
        subst hm
        refine ⟨hre.2, fun e he' => ?_, fun r hr => ?_⟩
        · rw [← hout] at he'; cases he'
        · rw [← hout] at hr
          obtain ⟨hrange⟩ := hr
          obtain ⟨hai, _, _, _, _⟩ := allocate_range_inv hre.1.2 halloc
          refine ⟨hre.1.1, ?_⟩
          rw [hre.2]
          rw [hre.2] at hai
          exact hai
      · rename_i hfail2
        obtain ⟨hm, he, hout⟩ := Prod.mk.injEq .. |>.mp h |>.imp id (Prod.mk.injEq .. |>.mp)
        subst hm
        refine ⟨hre.2, fun e he' => hre.1, fun r hr => ?_⟩
        · rw [← hout] at hr; cases hr

theorem uploadAttrs_invE {dev : DeviceLimits} :
    ∀ (attrs : List (VertexAttributeKind × Nat)) (m : MeshManager) (eff : Effects)
      (offset : Nat) (m' : MeshManager) (eff' : Effects)
      (out : Except String (List (VertexAttributeKind × Rng) × List BufferCopy × Nat))
      (extraV extraI : List Rng),
      MeshInvE m extraV extraI →
      uploadAttrs dev m eff attrs offset = (m', eff', out) →
      m'.registry = m.registry ∧
        (∀ e, out = Except.error e → MeshInvE m' extraV extraI) ∧
        (∀ res, out = Except.ok res →
          MeshInvE m' (res.1.map (fun p => p.2) ++ extraV) extraI) := by
  intro attrs
  induction attrs with
  | nil =>
    intro m eff offset m' eff' out extraV extraI hinv h
    obtain ⟨hm, he, hout⟩ := Prod.mk.injEq .. |>.mp h |>.imp id (Prod.mk.injEq .. |>.mp)
    subst hm
    refine ⟨rfl, fun e he' => ?_, fun res hres => ?_⟩
    · rw [← hout] at he'; cases he'
    · rw [← hout] at hres
      obtain ⟨hres⟩ := hres
      exact hinv
  | cons kv rest ih =>
    intro m eff offset m' eff' out extraV extraI hinv h
    obtain ⟨kind, len⟩ := kv
    simp only [uploadAttrs] at h
    split at h
    · rename_i m1 eff1 e heq
      obtain ⟨hm, he, hout⟩ := Prod.mk.injEq .. |>.mp h |>.imp id (Prod.mk.injEq .. |>.mp)
      subst hm
      have ha := alloc_vertices_invE hinv heq
      refine ⟨ha.1, fun e' he' => ha.2.1 e rfl, fun res hres => ?_⟩
      · rw [← hout] at hres; cases hres
    · rename_i m1 eff1 range heq
      have ha := alloc_vertices_invE hinv heq
      have hinv1 : MeshInvE m1 (range :: extraV) extraI := ha.2.2 range rfl
      split at h
      · rename_i m2 eff2 e heq2
        obtain ⟨hm, he, hout⟩ := Prod.mk.injEq .. |>.mp h |>.imp id (Prod.mk.injEq .. |>.mp)
        subst hm
        have hrec := ih m1 eff1 (offset + len) m2 eff2 (Except.error e)
          (range :: extraV) extraI hinv1 heq2
        refine ⟨hrec.1.trans ha.1, fun e' he' => ?_, fun res hres => ?_⟩
        · have h2 := hrec.2.1 e rfl
          obtain ⟨hv2, hi2⟩ := h2
          refine ⟨allocInv_subperm hv2 ?_, hi2⟩
          refine List.Sublist.subperm ?_
          refine List.Sublist.append ?_ (List.Sublist.refl _)
          exact List.sublist_cons_self range extraV
        · rw [← hout] at hres; cases hres
      · rename_i m2 eff2 ranges copies final heq2
        obtain ⟨hm, he, hout⟩ := Prod.mk.injEq .. |>.mp h |>.imp id (Prod.mk.injEq .. |>.mp)
        subst hm
        have hrec := ih m1 eff1 (offset + len) m2 eff2 (Except.ok (ranges, copies, final))
          (range :: extraV) extraI hinv1 heq2
        refine ⟨hrec.1.trans ha.1, fun e' he' => ?_, fun res hres => ?_⟩
        · rw [← hout] at he'; cases he'
        · rw [← hout] at hres
          obtain ⟨hres⟩ := hres
          have h2 := hrec.2.2 (ranges, copies, final) rfl
          obtain ⟨hv2, hi2⟩ := h2
          refine ⟨allocInv_subperm hv2 ?_, hi2⟩
          refine List.Perm.subperm ?_
          simp only [List.map_cons]
          refine List.Perm.append_right (liveV m2.registry) ?_
          exact List.perm_middle.symm

theorem meshInvE_drop {m : MeshManager} {X Y : List Rng} (h : MeshInvE m X Y) :
    MeshInv m := by
  obtain ⟨hv, hi⟩ := h
  constructor
  · exact allocInv_subperm hv
      (List.Sublist.subperm (List.sublist_append_right X (liveV m.registry)))
  · exact allocInv_subperm hi
      (List.Sublist.subperm (List.sublist_append_right Y (liveI m.registry)))

theorem upload_mesh_inv {dev : DeviceLimits} {m : MeshManager} {eff : Effects}
    {mesh : Mesh} {m' : MeshManager} {eff' : Effects} {out : Except String GpuMesh}
    (hinv : MeshInv m) (h : m.upload_mesh dev eff mesh = (m', eff', out)) :
    m'.registry = m.registry ∧
      (∀ e, out = Except.error e → MeshInv m') ∧
      (∀ g, out = Except.ok g → MeshInvE m' (slotV (some g)) (slotI (some g))) := by
  unfold MeshManager.upload_mesh at h
  split at h
  · obtain ⟨hm, he, hout⟩ := Prod.mk.injEq .. |>.mp h |>.imp id (Prod.mk.injEq .. |>.mp)
    subst hm
    refine ⟨rfl, fun e he' => hinv, fun g hg => ?_⟩
    rw [← hout] at hg
    obtain ⟨hg⟩ := hg
    simpa [slotV, slotI, GpuMesh.new_empty, Rng.isEmpty] using hinv
  · dsimp only at h
    split at h
    · rename_i m1 eff1 e heq
      obtain ⟨hm, he, hout⟩ := Prod.mk.injEq .. |>.mp h |>.imp id (Prod.mk.injEq .. |>.mp)
      subst hm
      have hu := uploadAttrs_invE mesh.attribute_data m _ 0 m1 eff1 _ [] [] hinv heq
      refine ⟨hu.1, fun e' he' => hu.2.1 e rfl, fun g hg => ?_⟩
      rw [← hout] at hg; cases hg
    · rename_i m1 eff1 vranges vcopies soffset heq
      have hu := uploadAttrs_invE mesh.attribute_data m _ 0 m1 eff1 _ [] [] hinv heq
      have hinv1 := hu.2.2 (vranges, vcopies, soffset) rfl
      split at h
      · rename_i m2 eff2 e heq2
        obtain ⟨hm, he, hout⟩ := Prod.mk.injEq .. |>.mp h |>.imp id (Prod.mk.injEq .. |>.mp)
        subst hm
        have ha := alloc_indices_invE hinv1 heq2
        refine ⟨ha.1.trans hu.1, fun e' he' => meshInvE_drop (ha.2.1 e rfl),
          fun g hg => ?_⟩
        rw [← hout] at hg; cases hg
      · rename_i m2 eff2 idxr heq2
        obtain ⟨hm, he, hout⟩ := Prod.mk.injEq .. |>.mp h |>.imp id (Prod.mk.injEq .. |>.mp)
        subst hm
        have ha := alloc_indices_invE hinv1 heq2
        have hinv2 := ha.2.2 idxr rfl
        refine ⟨ha.1.trans hu.1, fun e' he' => ?_, fun g hg => ?_⟩
        · rw [← hout] at he'; cases he'
        · rw [← hout] at hg
          obtain ⟨hg⟩ := hg
          obtain ⟨hv2, hi2⟩ := hinv2
          constructor
          · refine allocInv_subperm hv2 (List.Sublist.subperm ?_)
            refine List.Sublist.append ?_ (List.Sublist.refl _)
            simp only [slotV, List.append_nil]
            exact List.filter_sublist _
          · refine allocInv_subperm hi2 (List.Sublist.subperm ?_)
            refine List.Sublist.append ?_ (List.Sublist.refl _)
            simp only [slotI]
            by_cases hie : idxr.isEmpty
            · simp [hie]
            · simp [hie]

theorem liveF_setSlot (f : Option GpuMesh → List Rng) (hf : f none = []) (g : GpuMesh) :
    ∀ (i : Nat) (reg : List (Option GpuMesh)),
      List.Subperm (liveF f (setSlot reg i g)) (f (some g) ++ liveF f reg) := by
  intro i
  induction i with
  | zero =>
    intro reg
    cases reg with
    | nil => exact List.Subperm.refl _
    | cons x xs =>
      simp only [setSlot, liveF]
      refine (List.subperm_append_left (f (some g))).mpr ?_
      exact List.Sublist.subperm (List.sublist_append_right (f x) (liveF f xs))
  | succ n ih =>
    intro reg
    cases reg with
    | nil =>
      simp only [setSlot, liveF, hf, List.nil_append]
      exact ih []
    | cons x xs =>
      simp only [setSlot, liveF]
      have h1 := (List.subperm_append_left (f x)).mpr (ih xs)
      refine h1.trans (List.Perm.subperm ?_)
      rw [← List.append_assoc, ← List.append_assoc]
      exact List.Perm.append_right _ List.perm_append_comm

theorem liveF_clearSlot (f : Option GpuMesh → List Rng) (hf : f none = [])
    {mesh : GpuMesh} :
    ∀ (i : Nat) (reg : List (Option GpuMesh)), getSlot reg i = some mesh →
      List.Perm (liveF f reg) (f (some mesh) ++ liveF f (clearSlot reg i)) := by
  intro i
  induction i with
  | zero =>
    intro reg hget
    cases reg with
    | nil => simp [getSlot] at hget
    | cons x xs =>
      simp only [getSlot, List.getD_cons_zero] at hget
      subst hget
      simp only [clearSlot, liveF, hf, List.nil_append]
      exact List.Perm.refl _
  | succ n ih =>
    intro reg hget
    cases reg with
    | nil => simp [getSlot] at hget
    | cons x xs =>
      simp only [getSlot, List.getD_cons_succ] at hget
      have := ih xs hget
      simp only [clearSlot, liveF]
      refine (List.Perm.append_left (f x) this).trans ?_
      rw [← List.append_assoc, ← List.append_assoc]
      exact List.Perm.append_right _ List.perm_append_comm

theorem freeRanges_inv {rest : List Rng} :
    ∀ (rs : List Rng) (a : RangeAllocator),
      AllocInv a ((rs.filter (fun r => !r.isEmpty)) ++ rest) →
      AllocInv (freeRanges a rs) rest := by
  intro rs
  induction rs with
  | nil => intro a h; exact h
  | cons r rs ih =>
    intro a h
    by_cases hre : r.isEmpty
    · rw [List.filter_cons_of_neg (by simp [hre])] at h
      simp only [freeRanges, if_pos hre]
      exact ih a h
    · rw [List.filter_cons_of_pos (by simp [hre])] at h
      simp only [freeRanges, if_neg hre]
      exact ih _ (allocInv_free_cons h)

theorem insert_inv {m : MeshManager} {i : Nat} {g : GpuMesh}
    (hinv : MeshInvE m (slotV (some g)) (slotI (some g))) :
    MeshInv (m.insert i g) := by
  obtain ⟨hv, hi⟩ := hinv
  constructor
  · exact allocInv_subperm hv (liveF_setSlot slotV rfl g i m.registry)
  · exact allocInv_subperm hi (liveF_setSlot slotI rfl g i m.registry)

theorem remove_inv {m : MeshManager} {i : Nat} (hinv : MeshInv m) :
    MeshInv (m.remove i).1 := by
  unfold MeshManager.remove
  split
  · exact hinv
  · rename_i mesh hget
    obtain ⟨hv, hi⟩ := hinv
    have hpermV := liveF_clearSlot slotV rfl i m.registry hget
    have hpermI := liveF_clearSlot slotI rfl i m.registry hget
    constructor
    · refine freeRanges_inv _ _ (allocInv_subperm hv (List.Perm.subperm ?_))
      exact hpermV.symm
    · by_cases hie : mesh.indices_range.isEmpty
      · simp only [hie, if_pos]
        refine allocInv_subperm hi (List.Perm.subperm ?_)
        have : slotI (some mesh) = [] := by simp [slotI, hie]
        rw [this, List.nil_append] at hpermI
        exact hpermI.symm
      · simp only [hie, if_neg, Bool.false_eq_true, not_false_iff]
        have : slotI (some mesh) = [mesh.indices_range] := by simp [slotI, hie]
        rw [this] at hpermI
        refine allocInv_free_cons (allocInv_subperm hi (List.Perm.subperm ?_))
        exact hpermI.symm

theorem execOp_inv {dev : DeviceLimits} {st : MeshManager × Effects} {op : MeshOp}
    (hinv : MeshInv st.1) : MeshInv (execOp dev st op).1 := by
  cases op with
  | upload mesh handle =>
    simp only [execOp]
    split
    · rename_i m1 eff1 g heq
      exact insert_inv ((upload_mesh_inv hinv heq).2.2 g rfl)
    · rename_i m1 eff1 e heq
      exact (upload_mesh_inv hinv heq).2.1 e rfl
  | uploadOnly mesh =>
    simp only [execOp]
    rcases heq : MeshManager.upload_mesh dev st.1 st.2 mesh with ⟨m1, eff1, out⟩
    cases out with
    | error e => exact (upload_mesh_inv hinv heq).2.1 e rfl
    | ok g => exact meshInvE_drop ((upload_mesh_inv hinv heq).2.2 g rfl)
  | removeOp handle => exact remove_inv hinv
  | reallocOp av ai =>
    simp only [execOp]
    exact (@realloc_invE dev st.1 st.2 av ai [] [] hinv).1

theorem execOps_inv (dev : DeviceLimits) (ops : List MeshOp) :
    MeshInv (execOps dev ops).1 := by
  have hstep : ∀ (l : List MeshOp) (st : MeshManager × Effects), MeshInv st.1 →
      MeshInv (l.foldl (execOp dev) st).1 := by
    intro l
    induction l with
    | nil => intro st h; exact h
    | cons op rest ih =>
      intro st h
      exact ih _ (execOp_inv h)
  refine hstep ops _ ?_
  constructor
  · exact allocInv_new (by decide)
  · exact allocInv_new (by decide)

theorem getSlot_clearSlot_self :
    ∀ (i : Nat) (reg : List (Option GpuMesh)), getSlot (clearSlot reg i) i = none := by
  intro i
  induction i with
  | zero =>
    intro reg
    cases reg with
    | nil => rfl
    | cons x xs => rfl
  | succ n ih =>
    intro reg
    cases reg with
    | nil => rfl
    | cons x xs =>
      simp only [clearSlot, getSlot, List.getD_cons_succ]
      exact ih xs

theorem getSlot_clearSlot_other :
    ∀ (i j : Nat) (reg : List (Option GpuMesh)), j ≠ i →
      getSlot (clearSlot reg i) j = getSlot reg j := by
  intro i
  induction i with
  | zero =>
    intro j reg hj
    cases reg with
    | nil => rfl
    | cons x xs =>
      cases j with
      | zero => exact absurd rfl hj
      | succ k => rfl
  | succ n ih =>
    intro j reg hj
    cases reg with
    | nil => rfl
    | cons x xs =>
      cases j with
      | zero => rfl
      | succ k =>
        simp only [clearSlot, getSlot, List.getD_cons_succ]
        exact ih k xs (fun hk => hj (by rw [hk]))

theorem freeRanges_free_perm :
    ∀ (rs : List Rng) (a : RangeAllocator),
      List.Perm (freeRanges a rs).free ((rs.filter (fun r => !r.isEmpty)) ++ a.free) ∧
        (freeRanges a rs).capacity = a.capacity := by
  intro rs
  induction rs with
  | nil => intro a; exact ⟨List.Perm.refl _, rfl⟩
  | cons r rs ih =>
    intro a
    by_cases hre : r.isEmpty
    · rw [List.filter_cons_of_neg (by simp [hre])]
      simp only [freeRanges, if_pos hre]
      exact ih a
    · rw [List.filter_cons_of_pos (by simp [hre])]
      simp only [freeRanges, if_neg hre]
      obtain ⟨hperm, hcap⟩ := ih (a.free_range r)
      constructor
      · refine hperm.trans ?_
        refine ((List.Perm.append_left _ (insertRng_perm r a.free)).trans ?_)
        exact List.perm_middle
      · exact hcap

/-- **C2.** After every sequence of `upload_mesh`, `insert`, `remove` and `realloc`
operations on a `MeshManager` (any device limits, any meshes, any handles), every
non-empty byte range held by a registered GPU mesh record is pairwise disjoint from
every other live range of the same range allocator (vertex or index), is disjoint from
that allocator's free list, and lies entirely within `[0, capacity)`. -/
theorem mesh_manager_registered_ranges_disjoint_in_bounds
    (dev : DeviceLimits) (ops : List MeshOp) :
    (List.Pairwise Rng.disj (liveV (execOps dev ops).1.registry) ∧
      ∀ r ∈ liveV (execOps dev ops).1.registry,
        r.start < r.stop ∧ r.stop ≤ (execOps dev ops).1.vertex_alloc.capacity ∧
          (execOps dev ops).1.vertex_alloc.disjFree r) ∧
    (List.Pairwise Rng.disj (liveI (execOps dev ops).1.registry) ∧
      ∀ r ∈ liveI (execOps dev ops).1.registry,
        r.start < r.stop ∧ r.stop ≤ (execOps dev ops).1.index_alloc.capacity ∧
          (execOps dev ops).1.index_alloc.disjFree r) := by
  obtain ⟨⟨hvwf, hvp, hvm⟩, ⟨hiwf, hip, him⟩⟩ := execOps_inv dev ops
  exact ⟨⟨hvp, hvm⟩, ⟨hip, him⟩⟩

/-- **C8.** A mesh with zero vertices or zero indices short-circuits: `upload_mesh`
returns the manager, the effects (no staging allocation, no encoder command, no range
allocated) and the explicit empty record (vertex count 0, no attribute ranges, index
range `0..0`). -/
theorem upload_mesh_empty_short_circuit (dev : DeviceLimits) (m : MeshManager)
    (eff : Effects) (mesh : Mesh) (h : mesh.vertex_count = 0 ∨ mesh.index_count = 0) :
    m.upload_mesh dev eff mesh = (m, eff, Except.ok GpuMesh.new_empty) ∧
      GpuMesh.new_empty.vertex_count = 0 ∧
      GpuMesh.new_empty.vertex_attribute_ranges = [] ∧
      GpuMesh.new_empty.indices_range = ⟨0, 0⟩ := by
  refine ⟨?_, rfl, rfl, rfl⟩
  unfold MeshManager.upload_mesh
  rw [if_pos h]

/-- Witness for C8 at a concrete zero-vertex mesh. -/
theorem upload_mesh_empty_short_circuit_witness :
    ((⟨0, [(0, 16)], 5⟩ : Mesh).vertex_count = 0 ∨
        (⟨0, [(0, 16)], 5⟩ : Mesh).index_count = 0) ∧
      MeshManager.new.upload_mesh ⟨1024⟩ Effects.empty ⟨0, [(0, 16)], 5⟩ =
        (MeshManager.new, Effects.empty, Except.ok GpuMesh.new_empty) :=
  ⟨Or.inl rfl,
    (upload_mesh_empty_short_circuit ⟨1024⟩ MeshManager.new Effects.empty
      ⟨0, [(0, 16)], 5⟩ (Or.inl rfl)).1⟩

/-- **C9.** `remove` on a registered handle succeeds, empties the slot (so a second
`remove` of the same handle fails), leaves other slots untouched, and returns exactly
the record's non-empty ranges to the corresponding allocators (the free lists gain
precisely the non-empty vertex ranges and the non-empty index range; capacities are
unchanged); `remove` on an absent handle fails fast leaving the state unchanged. -/
theorem remove_returns_ranges_and_fails_fast (m : MeshManager) (i : Nat) :
    (getSlot m.registry i = none →
      m.remove i = (m, Except.error "handle must be valid")) ∧
    (∀ g, getSlot m.registry i = some g →
      (m.remove i).2 = Except.ok () ∧
      getSlot (m.remove i).1.registry i = none ∧
      (∀ j, j ≠ i → getSlot (m.remove i).1.registry j = getSlot m.registry j) ∧
      List.Perm (m.remove i).1.vertex_alloc.free
        (((g.vertex_attribute_ranges.map (fun p => p.2)).filter (fun r => !r.isEmpty))
          ++ m.vertex_alloc.free) ∧
      (m.remove i).1.vertex_alloc.capacity = m.vertex_alloc.capacity ∧
      List.Perm (m.remove i).1.index_alloc.free
        ((if g.indices_range.isEmpty then [] else [g.indices_range])
          ++ m.index_alloc.free) ∧
      (m.remove i).1.index_alloc.capacity = m.index_alloc.capacity ∧
      ((m.remove i).1.remove i).2 = Except.error "handle must be valid") := by
  constructor
  · intro hnone
    unfold MeshManager.remove
    rw [hnone]
  · intro g hsome
    have hrm : m.remove i =
        ({ m with
            registry := clearSlot m.registry i,
            vertex_alloc :=
              freeRanges m.vertex_alloc (g.vertex_attribute_ranges.map (fun p => p.2)),
            index_alloc :=
              if g.indices_range.isEmpty then m.index_alloc
              else m.index_alloc.free_range g.indices_range },
         Except.ok ()) := by
      unfold MeshManager.remove
      rw [hsome]
    rw [hrm]
    obtain ⟨hfp, hfc⟩ :=
      freeRanges_free_perm (g.vertex_attribute_ranges.map (fun p => p.2)) m.vertex_alloc
    refine ⟨rfl, getSlot_clearSlot_self i m.registry,
      fun j hj => getSlot_clearSlot_other i j m.registry hj, hfp, hfc, ?_, ?_, ?_⟩
    · by_cases hie : g.indices_range.isEmpty
      · simp only [if_pos hie]
        exact List.Perm.refl _
      · simp only [if_neg hie]
        exact (insertRng_perm g.indices_range m.index_alloc.free).trans (List.Perm.refl _)
    · by_cases hie : g.indices_range.isEmpty
      · simp only [if_pos hie]
      · simp only [if_neg hie]
        rfl
    · unfold MeshManager.remove
      dsimp only
      rw [getSlot_clearSlot_self i m.registry]


/-- A record with two attribute ranges (one of them empty) and a non-empty index range,
used to witness `remove`. -/
def g0 : GpuMesh := ⟨3, [(0, ⟨0, 16⟩), (1, ⟨16, 16⟩)], ⟨0, 4⟩⟩

/-- Witness for C9: registering `g0` and removing it twice — the first `remove`
succeeds, the second fails fast. -/
theorem remove_returns_ranges_and_fails_fast_witness :
    getSlot (MeshManager.new.insert 0 g0).registry 0 = some g0 ∧
      ((MeshManager.new.insert 0 g0).remove 0).2 = Except.ok () ∧
      (((MeshManager.new.insert 0 g0).remove 0).1.remove 0).2 =
        Except.error "handle must be valid" :=
  ⟨rfl,
    ((remove_returns_ranges_and_fails_fast (MeshManager.new.insert 0 g0) 0).2 g0 rfl).1,
    ((remove_returns_ranges_and_fails_fast (MeshManager.new.insert 0 g0) 0).2 g0
      rfl).2.2.2.2.2.2.2⟩

/-- The device limit used in the growth scenarios (any value ≥ 524288 behaves alike). -/
def devScenario : DeviceLimits := ⟨1073741824⟩

/-- The result of requesting a 70000-byte vertex range from a fresh manager (vertex
buffer at capacity 65536): the §8 growth scenario. -/
def c7After : MeshManager × Effects × Except String Rng :=
  MeshManager.new.alloc_range_for_vertices devScenario Effects.empty 70000

/-- **C7 counterexample.** In the §8 scenario (vertex buffer at 65536, additional
70000-byte stream) the computed new capacity is 262144 — the claimed value 131072 is
smaller than 135536, so it is not a power of two ≥ current + additional. -/
theorem growth_scenario_capacity_is_not_131072 :
    c7After.1.vertex_alloc.capacity = 262144 ∧
      c7After.1.vertex_alloc.capacity ≠ 131072 := by
  refine ⟨by decide, by decide⟩

/-- **C7 amended.** With the vertex buffer at capacity 65536 and a request for an
additional 70000-byte attribute stream, growth computes new capacity 262144 (the
smallest power of two ≥ 135536), records the copy of the old buffer's 65536-byte
content into the new buffer, serves the request at `65536..135536`, and a subsequent
allocation of any `k ≤ 135536 − 65536 = 70000` bytes succeeds directly (no further
growth: `allocate_range` itself succeeds and the capacity stays 262144). -/
theorem growth_scenario_next_power_of_two (k : Nat) (hk0 : 0 < k) (hk : k ≤ 70000) :
    c7After.2.2 = Except.ok ⟨65536, 135536⟩ ∧
      c7After.1.vertex_alloc.capacity = 262144 ∧
      c7After.1.buffers.vertices = 262144 ∧
      c7After.2.1.encoder = [EncCmd.growCopyVertices ⟨0, 0, 65536⟩] ∧
      (∃ a got, c7After.1.vertex_alloc.allocate_range k = some (a, got) ∧
        a.capacity = 262144) := by
  refine ⟨by rfl, by decide, by decide, by decide, ?_⟩
  have hfree : c7After.1.vertex_alloc =
      ⟨262144, [⟨0, 65536⟩, ⟨135536, 262144⟩]⟩ := by decide
  rw [hfree]
  unfold RangeAllocator.allocate_range
  rw [if_neg (by omega)]
  by_cases hsmall : k ≤ 65536
  · unfold allocGo
    rw [if_pos (by simp [Rng.size]; omega)]
    exact ⟨_, _, rfl, rfl⟩
  · unfold allocGo
    rw [if_neg (by simp [Rng.size]; omega)]
    unfold allocGo
    rw [if_pos (by simp [Rng.size]; omega)]
    exact ⟨_, _, rfl, rfl⟩

/-- Witness for the amended C7 at the boundary `k = 70000`. -/
theorem growth_scenario_next_power_of_two_witness :
    (0 : Nat) < 70000 ∧ (70000 : Nat) ≤ 70000 ∧
      (∃ a got, c7After.1.vertex_alloc.allocate_range 70000 = some (a, got) ∧
        a.capacity = 262144) :=
  ⟨by decide, by decide,
    (growth_scenario_next_power_of_two 70000 (by decide) (by decide)).2.2.2.2⟩

/-- Three uploads that drive the vertex allocator to capacity 262144 and leave it full,
while the index allocator stays at capacity 65536. -/
def c1Ops : List MeshOp :=
  [MeshOp.upload ⟨1, [(0, 70000)], 1⟩ 0,
   MeshOp.upload ⟨1, [(0, 126608)], 1⟩ 1,
   MeshOp.upload ⟨1, [(0, 65536)], 1⟩ 2]

/-- The reachable failing state for C1. -/
def c1State : MeshManager × Effects := execOps devScenario c1Ops

/-- **C1.** Evaluation at the failing input: with the vertex allocator at capacity
262144 (and full) and the index allocator at capacity 65536, `realloc` for 100
additional vertex bytes reads `index_alloc.initial_range().end` as the current vertex
size (mesh_manager.rs:224).  It returns `Ok` and replaces the vertex buffer by a
131072-byte one — smaller than the live 262144-byte allocator interval — instead of
computing the smallest power of two ≥ 262144 + 100, which is 524288. -/
theorem realloc_vertex_capacity_from_index_allocator :
    c1State.1.vertex_alloc.capacity = 262144 ∧
      c1State.1.index_alloc.capacity = 65536 ∧
      (c1State.1.realloc devScenario c1State.2 100 0).2.2 = Except.ok () ∧
      (c1State.1.realloc devScenario c1State.2 100 0).1.buffers.vertices = 131072 ∧
      (c1State.1.realloc devScenario c1State.2 100 0).1.vertex_alloc.capacity = 262144 ∧
      checkedNextPowerOfTwo (262144 + 100) = some 524288 := by
  refine ⟨by decide, by decide, by rfl, by decide, by decide, by decide⟩

/-! ## Fence batch operations (`src/renderer/src/device.rs`) -/

/-- The three-state fence lifecycle of §4.3 (`FenceState` lives in `resources.rs`,
which is not among the provided sources). -/
inductive FenceState
  | unsignalled
  | armed
  | signalled
deriving DecidableEq, Repr

/-- Modelled from the spec: the fence wrapper of `resources.rs` together with the
native fence's actual completion status — `done` is what `vkGetFenceStatus` reports
(`SUCCESS` when `true`, `NOT_READY` when `false`). -/
structure Fence where
  state : FenceState
  done : Bool
deriving DecidableEq, Repr

/-- Modelled from the spec: `Fence::set_signalled` (§9: "transition functions that
validate the source state and reject illegal transitions").  Legal from `Armed`,
idempotent from `Signalled` (the post-wait loop of `wait_fences` re-signals fences that
were already `Signalled` and skipped), illegal from `Unsignalled`. -/
def Fence.set_signalled (f : Fence) : Except String Fence :=
  match f.state with
  | FenceState.armed => Except.ok { f with state := FenceState.signalled }
  | FenceState.signalled => Except.ok f
  | FenceState.unsignalled => Except.error "fence is not armed"

/-- Modelled from the spec: `Fence::set_unsignalled` — §4.3 "after the native reset
call succeeds for the whole batch, every fence's state becomes `Unsignalled`";
resetting is legal from `Signalled` and (idempotently) `Unsignalled`, and illegal from
`Armed`. -/
def Fence.set_unsignalled (f : Fence) : Except String Fence :=
  match f.state with
  | FenceState.armed => Except.error "fence is armed"
  | _ => Except.ok { f with state := FenceState.unsignalled }

/-- Native driver calls issued by the fence batch operations. -/
inductive NativeCall
  | getFenceStatus
  | resetFencesCall (count : Nat)
  | waitForFencesCall (count : Nat) (waitAll : Bool)
deriving DecidableEq, Repr

/-- `Device::update_armed_fence_state` (device.rs:140-151): poll the native status; on
`SUCCESS` transition to `Signalled` and report `true`, on `NOT_READY` report `false`. -/
def update_armed_fence_state (f : Fence) :
    List NativeCall × Except String (Fence × Bool) :=
  ([NativeCall.getFenceStatus],
   if f.done then (f.set_signalled).map (fun f2 => (f2, true))
   else Except.ok (f, false))

/-- The handle-collection pass of `reset_fences` (device.rs:154-169): each fence
currently `Armed` is polled first; an armed fence that is still pending aborts the
batch with an error. -/
def collectReset : List Fence → List NativeCall × Except String (List Fence)
  | [] => ([], Except.ok [])
  | f :: fs =>
    if f.state = FenceState.armed then
      match update_armed_fence_state f with
      | (t, Except.ok (f2, true)) =>
        let rec1 := collectReset fs
        (t ++ rec1.1, rec1.2.map (fun l => f2 :: l))
      | (t, Except.ok (_, false)) => (t, Except.error "armed fence cannot be reset")
      | (t, Except.error e) => (t, Except.error e)
    else
      let rec1 := collectReset fs
      (rec1.1, rec1.2.map (fun l => f :: l))

/-- The final loop of `reset_fences` (device.rs:173-175). -/
def unsignalAll : List Fence → Except String (List Fence)
  | [] => Except.ok []
  | f :: fs =>
    match f.set_unsignalled with
    | Except.error e => Except.error e
    | Except.ok f2 => (unsignalAll fs).map (fun l => f2 :: l)

/-- `Device::reset_fences` (device.rs:153-178).  The native `vkResetFences` call resets
every native fence of the batch (`done := false`) and is modelled as succeeding. -/
def reset_fences (fences : List Fence) :
    List NativeCall × Except String (List Fence) :=
  match collectReset fences with
  | (t, Except.error e) => (t, Except.error e)
  | (t, Except.ok fs2) =>
    (t ++ [NativeCall.resetFencesCall fs2.length],
     unsignalAll (fs2.map (fun f => { f with done := false })))

/-- The handle-collection pass of `wait_fences` (device.rs:181-193): `Unsignalled`
fences are rejected (deadlock prevention), `Signalled` fences are skipped, `Armed`
fences are collected for the native wait. -/
def collectWait : List Fence → Except String (List Fence)
  | [] => Except.ok []
  | f :: fs =>
    match f.state with
    | FenceState.unsignalled => Except.error "waiting for an unarmed fence"
    | FenceState.armed => (collectWait fs).map (fun l => f :: l)
    | FenceState.signalled => collectWait fs

/-- The post-wait loop of `wait_fences` (device.rs:205-210): when `all_signalled` every
fence is marked signalled without re-polling; otherwise each fence's completion is
individually re-polled before marking. -/
def waitLoop (allSignalled : Bool) :
    List Fence → List NativeCall × Except String (List Fence)
  | [] => ([], Except.ok [])
  | f :: fs =>
    if allSignalled then
      match f.set_signalled with
      | Except.error e => ([], Except.error e)
      | Except.ok f2 =>
        let rec1 := waitLoop allSignalled fs
        (rec1.1, rec1.2.map (fun l => f2 :: l))
    else
      match update_armed_fence_state f with
      | (t1, Except.error e) => (t1, Except.error e)
      | (t1, Except.ok (f2, polled)) =>
        match (if polled then f2.set_signalled else Except.ok f2) with
        | Except.error e => (t1, Except.error e)
        | Except.ok f3 =>
          let rec1 := waitLoop allSignalled fs
          (t1 ++ rec1.1, rec1.2.map (fun l => f3 :: l))

/-- `Device::wait_fences` (device.rs:180-215).  The native `vkWaitForFences` call (only
reached when at least one fence is armed) is modelled as succeeding: the
infinite-timeout wait returns once the associated work completes. -/
def wait_fences (fences : List Fence) (waitAll : Bool) :
    List NativeCall × Except String (List Fence) :=
  match collectWait fences with
  | Except.error e => ([], Except.error e)
  | Except.ok waited =>
    if waited.isEmpty then ([], Except.ok fences)
    else
      let allSignalled := waitAll || waited.length == 1
      let rec1 := waitLoop allSignalled fences
      (NativeCall.waitForFencesCall waited.length waitAll :: rec1.1, rec1.2)

theorem unsignalAll_states :
    ∀ (fs out : List Fence), unsignalAll fs = Except.ok out →
      ∀ f ∈ out, f.state = FenceState.unsignalled := by
  intro fs
  induction fs with
  | nil =>
    intro out h f hf
    simp only [unsignalAll, Except.ok.injEq] at h
    subst h
    cases hf
  | cons g gs ih =>
    intro out h f hf
    simp only [unsignalAll] at h
    cases hst : g.state with
    | armed => rw [Fence.set_unsignalled, hst] at h; cases h
    | unsignalled =>
      rw [Fence.set_unsignalled, hst] at h
      cases hrec : unsignalAll gs with
      | error e => rw [hrec] at h; cases h
      | ok l =>
        rw [hrec] at h
        simp only [Except.map, Except.ok.injEq] at h
        subst h
        rcases List.mem_cons.mp hf with h' | h'
        · rw [h']
        · exact ih l hrec f h'
    | signalled =>
      rw [Fence.set_unsignalled, hst] at h
      cases hrec : unsignalAll gs with
      | error e => rw [hrec] at h; cases h
      | ok l =>
        rw [hrec] at h
        simp only [Except.map, Except.ok.injEq] at h
        subst h
        rcases List.mem_cons.mp hf with h' | h'
        · rw [h']
        · exact ih l hrec f h'

theorem unsignalAll_ok :
    ∀ (fs : List Fence), (∀ f ∈ fs, f.state ≠ FenceState.armed) →
      ∃ out, unsignalAll fs = Except.ok out := by
  intro fs
  induction fs with
  | nil => intro _; exact ⟨[], rfl⟩
  | cons g gs ih =>
    intro h
    obtain ⟨l, hl⟩ := ih (fun f hf => h f (List.mem_cons_of_mem g hf))
    have hg := h g (List.mem_cons_self g gs)
    simp only [unsignalAll]
    cases hst : g.state with
    | armed => exact absurd hst hg
    | unsignalled =>
      rw [Fence.set_unsignalled, hst, hl]
      exact ⟨_, rfl⟩
    | signalled =>
      rw [Fence.set_unsignalled, hst, hl]
      exact ⟨_, rfl⟩

theorem collectReset_ok_spec :
    ∀ (fences : List Fence) (t : List NativeCall) (fs2 : List Fence),
      collectReset fences = (t, Except.ok fs2) →
      List.Forall₂ (fun f f2 =>
        (f.state = FenceState.armed →
          f.done = true ∧ f2.state = FenceState.signalled) ∧
        (f.state ≠ FenceState.armed → f2 = f)) fences fs2 := by
  intro fences
  induction fences with
  | nil =>
    intro t fs2 h
    simp only [collectReset, Prod.mk.injEq, Except.ok.injEq] at h
    rw [← h.2]
    exact List.Forall₂.nil
  | cons f fs ih =>
    intro t fs2 h
    simp only [collectReset] at h
    by_cases hst : f.state = FenceState.armed
    · rw [if_pos hst] at h
      by_cases hdone : f.done
      · simp only [update_armed_fence_state, hdone, if_pos, Fence.set_signalled, hst,
          Except.map] at h
        rcases hrec : collectReset fs with ⟨t1, r1⟩
        rw [hrec] at h
        cases r1 with
        | error e => simp [Except.map] at h
        | ok l =>
          simp only [Except.map, Prod.mk.injEq, Except.ok.injEq] at h
          rw [← h.2]
          refine List.Forall₂.cons ⟨fun _ => ⟨hdone, rfl⟩, fun hne => absurd hst hne⟩ ?_
          exact ih t1 l (by rw [hrec])
      · simp only [update_armed_fence_state, hdone, if_neg, Bool.false_eq_true,
          not_false_iff] at h
        simp [Except.map] at h
    · rw [if_neg hst] at h
      rcases hrec : collectReset fs with ⟨t1, r1⟩
      rw [hrec] at h
      cases r1 with
      | error e => simp [Except.map] at h
      | ok l =>
        simp only [Except.map, Prod.mk.injEq, Except.ok.injEq] at h
        rw [← h.2]
        refine List.Forall₂.cons ⟨fun ha => absurd ha hst, fun _ => rfl⟩ ?_
        exact ih t1 l (by rw [hrec])

theorem collectReset_err_of_pending :
    ∀ (fences : List Fence),
      (∃ f ∈ fences, f.state = FenceState.armed ∧ f.done = false) →
      ∃ t e, collectReset fences = (t, Except.error e) := by
  intro fences
  induction fences with
  | nil =>
    intro h
    obtain ⟨f, hf, _⟩ := h
    cases hf
  | cons f fs ih =>
    intro h
    by_cases hpend : f.state = FenceState.armed ∧ f.done = false
    · refine ⟨[NativeCall.getFenceStatus], "armed fence cannot be reset", ?_⟩
      simp only [collectReset, if_pos hpend.1, update_armed_fence_state, hpend.2,
        Bool.false_eq_true, if_neg, not_false_iff]
    · obtain ⟨g, hg, hga⟩ := h
      rcases List.mem_cons.mp hg with h' | h'
      · exact absurd (h' ▸ hga) hpend
      · obtain ⟨t, e, hrec⟩ := ih ⟨g, h', hga⟩
        by_cases hst : f.state = FenceState.armed
        · have hdone : f.done = true := by
            rcases Bool.eq_false_or_eq_true f.done with hd | hd
            · exact hd
            · exact absurd ⟨hst, hd⟩ hpend
          refine ⟨NativeCall.getFenceStatus :: t, e, ?_⟩
          simp only [collectReset, if_pos hst, update_armed_fence_state, hdone, if_pos,
            Fence.set_signalled, hst, Except.map, hrec]
          rfl
        · refine ⟨t, e, ?_⟩
          simp only [collectReset, if_neg hst, hrec, Except.map]

theorem collectReset_ok_of_armed_done :
    ∀ (fences : List Fence),
      (∀ f ∈ fences, f.state = FenceState.armed ∧ f.done = true) →
      ∃ t fs2, collectReset fences = (t, Except.ok fs2) := by
  intro fences
  induction fences with
  | nil => intro _; exact ⟨[], [], rfl⟩
  | cons f fs ih =>
    intro h
    obtain ⟨hst, hdone⟩ := h f (List.mem_cons_self f fs)
    obtain ⟨t, fs2, hrec⟩ := ih (fun g hg => h g (List.mem_cons_of_mem f hg))
    refine ⟨NativeCall.getFenceStatus :: t,
      { f with state := FenceState.signalled } :: fs2, ?_⟩
    simp only [collectReset, if_pos hst, update_armed_fence_state, hdone, if_pos,
      Fence.set_signalled, hst, Except.map, hrec]
    rfl

theorem collectReset_trace :
    ∀ (fences : List Fence) (c : NativeCall), c ∈ (collectReset fences).1 →
      c = NativeCall.getFenceStatus := by
  intro fences
  induction fences with
  | nil => intro c hc; cases hc
  | cons f fs ih =>
    intro c hc
    simp only [collectReset] at hc
    by_cases hst : f.state = FenceState.armed
    · rw [if_pos hst] at hc
      by_cases hdone : f.done
      · simp only [update_armed_fence_state, hdone, if_pos, Fence.set_signalled, hst,
          Except.map] at hc
        rcases List.mem_cons.mp hc with h' | h'
        · exact h'
        · exact ih c h'
      · simp only [update_armed_fence_state, hdone, Bool.false_eq_true, if_neg,
          not_false_iff] at hc
        rcases List.mem_cons.mp hc with h' | h'
        · exact h'
        · cases h'
    · rw [if_neg hst] at hc
      exact ih c hc

/-- **C3.** `reset_fences` batch behaviour: (1) on success every fence of the batch
ends `Unsignalled`; (2) a batch holding an `Armed`-but-still-pending fence is rejected
with an error (nothing is reset); (3) on a successful handle-collection pass each
`Armed` fence was actually complete and is transitioned to `Signalled` before the
reset, while non-armed fences are untouched by the pass; (4) a batch of only
`Armed`-and-actually-complete fences succeeds; (5) `reset_fences` never issues a native
wait call, whatever the batch (in particular for batches containing `Signalled`
fences). -/
theorem reset_fences_fence_state_machine :
    (∀ (fences : List Fence) (t : List NativeCall) (fs2 : List Fence),
      reset_fences fences = (t, Except.ok fs2) →
      ∀ f ∈ fs2, f.state = FenceState.unsignalled) ∧
    (∀ fences : List Fence,
      (∃ f ∈ fences, f.state = FenceState.armed ∧ f.done = false) →
      ∃ t e, reset_fences fences = (t, Except.error e)) ∧
    (∀ (fences : List Fence) (t : List NativeCall) (fs2 : List Fence),
      collectReset fences = (t, Except.ok fs2) →
      List.Forall₂ (fun f f2 =>
        (f.state = FenceState.armed →
          f.done = true ∧ f2.state = FenceState.signalled) ∧
        (f.state ≠ FenceState.armed → f2 = f)) fences fs2) ∧
    (∀ fences : List Fence,
      (∀ f ∈ fences, f.state = FenceState.armed ∧ f.done = true) →
      ∃ t fs2, reset_fences fences = (t, Except.ok fs2)) ∧
    (∀ (fences : List Fence) (c : NativeCall), c ∈ (reset_fences fences).1 →
      ∀ (n : Nat) (b : Bool), c ≠ NativeCall.waitForFencesCall n b) := by
  have hstates : ∀ (fences : List Fence) (t : List NativeCall) (fs2 : List Fence),
      reset_fences fences = (t, Except.ok fs2) →
      ∀ f ∈ fs2, f.state = FenceState.unsignalled := by
    intro fences t fs2 h f hf
    unfold reset_fences at h
    rcases hc : collectReset fences with ⟨t1, r1⟩
    rw [hc] at h
    cases r1 with
    | error e => simp at h
    | ok l =>
      simp only [Prod.mk.injEq] at h
      exact unsignalAll_states _ _ h.2 f hf
  refine ⟨hstates, ?_, collectReset_ok_spec, ?_, ?_⟩
  · intro fences hpend
    obtain ⟨t, e, hc⟩ := collectReset_err_of_pending fences hpend
    refine ⟨t, e, ?_⟩
    unfold reset_fences
    rw [hc]
  · intro fences hdone
    obtain ⟨t, fs2, hc⟩ := collectReset_ok_of_armed_done fences hdone
    have hall := collectReset_ok_spec fences t fs2 hc
    have hmem : ∀ g ∈ fs2, ∃ f ∈ fences,
        (f.state = FenceState.armed →
          f.done = true ∧ g.state = FenceState.signalled) ∧
        (f.state ≠ FenceState.armed → g = f) := by
      clear hc hdone
      induction hall with
      | nil => intro g hg; cases hg
      | cons hr hrest ih =>
        intro g hg
        rcases List.mem_cons.mp hg with h' | h'
        · exact ⟨_, List.mem_cons_self _ _, by rw [h']; exact hr⟩
        · obtain ⟨f, hf, hR⟩ := ih g h'
          exact ⟨f, List.mem_cons_of_mem _ hf, hR⟩
    have hnoarmed : ∀ f ∈ fs2.map (fun f => { f with done := false }),
        f.state ≠ FenceState.armed := by
      intro f hf
      obtain ⟨g, hg, hgf⟩ := List.mem_map.mp hf
      obtain ⟨f0, hf0, hrel⟩ := hmem g hg
      have hsig : g.state = FenceState.signalled := (hrel.1 (hdone f0 hf0).1).2
      rw [← hgf]
      show ¬(g.state = FenceState.armed)
      rw [hsig]
      intro h; cases h
    obtain ⟨out, hout⟩ := unsignalAll_ok _ hnoarmed
    refine ⟨t ++ [NativeCall.resetFencesCall fs2.length], out, ?_⟩
    unfold reset_fences
    rw [hc]
    dsimp only
    rw [hout]
  · intro fences c hc n b
    unfold reset_fences at hc
    rcases hcoll : collectReset fences with ⟨t1, r1⟩
    rw [hcoll] at hc
    cases r1 with
    | error e =>
      have := collectReset_trace fences c (by rw [hcoll]; exact hc)
      rw [this]
      intro h; cases h
    | ok l =>
      simp only at hc
      rcases List.mem_append.mp hc with h' | h'
      · have := collectReset_trace fences c (by rw [hcoll]; exact h')
        rw [this]
        intro h; cases h
      · simp only [List.mem_singleton] at h'
        rw [h']
        intro h; cases h

/-- Witness for C3: a batch of one armed-and-complete fence resets successfully; a
batch of one armed-but-pending fence is rejected. -/
theorem reset_fences_fence_state_machine_witness :
    (∃ t fs2, reset_fences [⟨FenceState.armed, true⟩] = (t, Except.ok fs2)) ∧
      (∃ t e, reset_fences [⟨FenceState.armed, false⟩] = (t, Except.error e)) :=
  ⟨reset_fences_fence_state_machine.2.2.2.1 [⟨FenceState.armed, true⟩]
      (by intro f hf; rw [List.mem_singleton] at hf; rw [hf]; exact ⟨rfl, rfl⟩),
    reset_fences_fence_state_machine.2.1 [⟨FenceState.armed, false⟩]
      ⟨⟨FenceState.armed, false⟩, List.mem_singleton_self _, rfl, rfl⟩⟩

theorem collectWait_err_of_unsignalled :
    ∀ fences : List Fence, (∃ f ∈ fences, f.state = FenceState.unsignalled) →
      collectWait fences = Except.error "waiting for an unarmed fence" := by
  intro fences
  induction fences with
  | nil =>
    intro h
    obtain ⟨f, hf, _⟩ := h
    cases hf
  | cons f fs ih =>
    intro h
    simp only [collectWait]
    cases hst : f.state with
    | unsignalled => rfl
    | armed =>
      obtain ⟨g, hg, hgu⟩ := h
      rcases List.mem_cons.mp hg with h' | h'
      · rw [h', hst] at hgu; cases hgu
      · rw [ih ⟨g, h', hgu⟩]; rfl
    | signalled =>
      obtain ⟨g, hg, hgu⟩ := h
      rcases List.mem_cons.mp hg with h' | h'
      · rw [h', hst] at hgu; cases hgu
      · exact ih ⟨g, h', hgu⟩

theorem collectWait_members :
    ∀ fences waited : List Fence, collectWait fences = Except.ok waited →
      ∀ f ∈ waited, f.state = FenceState.armed := by
  intro fences
  induction fences with
  | nil =>
    intro waited h f hf
    simp only [collectWait, Except.ok.injEq] at h
    subst h
    cases hf
  | cons g gs ih =>
    intro waited h f hf
    simp only [collectWait] at h
    cases hst : g.state with
    | unsignalled => rw [hst] at h; cases h
    | armed =>
      rw [hst] at h
      cases hrec : collectWait gs with
      | error e => rw [hrec] at h; cases h
      | ok l =>
        rw [hrec] at h
        simp only [Except.map, Except.ok.injEq] at h
        subst h
        rcases List.mem_cons.mp hf with h' | h'
        · rw [h', hst]
        · exact ih l hrec f h'
    | signalled =>
      rw [hst] at h
      exact ih waited h f hf

/-- **C4.** `wait_fences`: (1) a batch containing an `Unsignalled` fence is rejected
with an error and an empty native-call trace — before any native wait; (2) fences
already `Signalled` are excluded from the set of handles waited on, every waited fence
being `Armed`; (3) consequently a non-empty all-`Unsignalled` batch fails without any
native call. -/
theorem wait_fences_rejects_unsignalled :
    (∀ (fences : List Fence) (waitAll : Bool),
      (∃ f ∈ fences, f.state = FenceState.unsignalled) →
      ∃ e, wait_fences fences waitAll = ([], Except.error e)) ∧
    (∀ fences waited : List Fence, collectWait fences = Except.ok waited →
      ∀ f ∈ waited, f.state = FenceState.armed) ∧
    (∀ (fences : List Fence) (waitAll : Bool), fences ≠ [] →
      (∀ f ∈ fences, f.state = FenceState.unsignalled) →
      wait_fences fences waitAll =
        ([], Except.error "waiting for an unarmed fence")) := by
  have h1 : ∀ (fences : List Fence) (waitAll : Bool),
      (∃ f ∈ fences, f.state = FenceState.unsignalled) →
      wait_fences fences waitAll =
        ([], Except.error "waiting for an unarmed fence") := by
    intro fences waitAll hex
    unfold wait_fences
    rw [collectWait_err_of_unsignalled fences hex]
  refine ⟨fun fences waitAll hex => ⟨_, h1 fences waitAll hex⟩, collectWait_members, ?_⟩
  intro fences waitAll hne hall
  cases fences with
  | nil => exact absurd rfl hne
  | cons f fs =>
    exact h1 _ _ ⟨f, List.mem_cons_self f fs, hall f (List.mem_cons_self f fs)⟩

/-- Witness for C4: the singleton all-`Unsignalled` batch fails with no native call. -/
theorem wait_fences_rejects_unsignalled_witness :
    wait_fences [⟨FenceState.unsignalled, false⟩] true =
      ([], Except.error "waiting for an unarmed fence") :=
  wait_fences_rejects_unsignalled.2.2 [⟨FenceState.unsignalled, false⟩] true
    (by intro h; cases h)
    (by intro f hf; rw [List.mem_singleton] at hf; rw [hf])

/-! ## Feature negotiation (`src/renderer/src/physical_device.rs`) -/

/-- `Feature` (physical_device.rs:10-15). -/
inductive Feature
  | bufferDeviceAddress
  | displayTiming
  | scalarBlockLayout
  | surfacePresentation
deriving DecidableEq, Repr

/-- The Vulkan device extensions named by `create_device`. -/
inductive Ext
  | khrSwapchain
  | googleDisplayTiming
  | extScalarBlockLayout
  | khrBufferDeviceAddress
deriving DecidableEq, Repr

/-- Structured device-creation errors; each constructor corresponds to one `anyhow`
message of the source, and `unresolvedFeatures` carries every remaining name (the
source joins them into a single message). -/
inductive DevErr
  | queueFamilyNotFound (family : Nat)
  | tooManyQueues (family : Nat)
  | extensionMissing (e : Ext)
  | featureNotSupported (f : Feature)
  | unresolvedFeatures (fs : List Feature)
deriving DecidableEq, Repr

/-- The feature blocks attachable to the creation request with `push_next`: the native
tier-2 block (`PhysicalDeviceVulkan12Features`) and the two extension equivalents. -/
inductive FeatureBlock
  | v12 (scalar_block_layout buffer_device_address : Bool)
  | sbl (scalar_block_layout : Bool)
  | bda (buffer_device_address : Bool)
deriving DecidableEq, Repr

/-- The parts of `vk::DeviceCreateInfo` the embedding tracks: the assembled queue
infos (family, count), the enabled-extensions list, and the pushed feature blocks in
push order.  The base `enabled_features` v1.0 block (always attached, all zero) is not
tracked. -/
structure DeviceCreateInfo where
  queue_create_infos : List (Nat × Nat)
  enabled_extensions : List Ext
  pushed_blocks : List FeatureBlock
deriving DecidableEq, Repr

/-- The capability-snapshot fields `create_device` reads: supported device extensions,
the two tier-2 feature bits (`features.v1_2.scalar_block_layout != 0`,
`features.v1_2.buffer_device_address != 0`), and the queue count of each family. -/
structure PhysInfo where
  supported_extensions : List Ext
  scalar_block_layout : Bool
  buffer_device_address : Bool
  queue_families : List Nat
deriving DecidableEq, Repr

/-- The `require_ext` closure (physical_device.rs:82-93).  The guard on the push at
line 88 is `extensions.contains(...)` — the name is appended only when the list already
contains it. -/
def require_ext (supported : List Ext) (extensions : List Ext) (e : Ext) :
    Except DevErr (List Ext) :=
  if supported.contains e then
    Except.ok (if extensions.contains e then extensions ++ [e] else extensions)
  else Except.error (DevErr.extensionMissing e)

def lookupCount : List (Nat × Nat) → Nat → Option Nat
  | [], _ => none
  | (k, v) :: rest, key => if k = key then some v else lookupCount rest key

def updateCount : List (Nat × Nat) → Nat → Nat → List (Nat × Nat)
  | [], key, v => [(key, v)]
  | (k, w) :: rest, key, v =>
    if k = key then (k, v) :: rest else (k, w) :: updateCount rest key v

/-- The queue-assembly loop (physical_device.rs:51-76): validate each requested
(family, count) pair against the family's hardware queue count, accumulating the
cumulative per-family request. -/
def buildQueues (families : List Nat) :
    List (Nat × Nat) → List (Nat × Nat) → Except DevErr (List (Nat × Nat))
  | acc, [] => Except.ok acc
  | acc, (family_idx, count) :: rest =>
    match families.get? family_idx with
    | none => Except.error (DevErr.queueFamilyNotFound family_idx)
    | some qavail =>
      let queue_count := (lookupCount acc family_idx).getD 0 + count
      if queue_count ≤ qavail then
        buildQueues families (updateCount acc family_idx queue_count) rest
      else Except.error (DevErr.tooManyQueues family_idx)

/-- Outcome of the feature-resolution pass (physical_device.rs:104-136): the tier-2
bits, the three include flags, the enabled-extensions list so far, and the features
still unresolved. -/
structure FeatureResolution where
  features_sbl : Bool
  features_bda : Bool
  include_v1_2 : Bool
  include_sbl : Bool
  include_bda : Bool
  extensions : List Ext
  remaining : List Feature
deriving DecidableEq, Repr

/-- The feature-resolution pass (physical_device.rs:104-136), walking the requested set
once in source order: SurfacePresentation (swapchain extension), ScalarBlockLayout and
BufferDeviceAddress (tier-2 feature bits, fail when the hardware bit is unset),
DisplayTiming (display-timing extension).  `remove` on the hash set is modelled as
`contains` plus `erase` on the deduplicated list. -/
def resolveFeatures (pd : PhysInfo) (features : List Feature) :
    Except DevErr FeatureResolution :=
  let requested := features.dedup
  let step1 : Except DevErr (List Ext) :=
    if requested.contains Feature.surfacePresentation then
      require_ext pd.supported_extensions [] Ext.khrSwapchain
    else Except.ok []
  match step1 with
  | Except.error e => Except.error e
  | Except.ok exts1 =>
    let requested1 := requested.erase Feature.surfacePresentation
    let sbl := requested1.contains Feature.scalarBlockLayout
    if sbl ∧ pd.scalar_block_layout = false then
      Except.error (DevErr.featureNotSupported Feature.scalarBlockLayout)
    else
      let requested2 := requested1.erase Feature.scalarBlockLayout
      let bda := requested2.contains Feature.bufferDeviceAddress
      if bda ∧ pd.buffer_device_address = false then
        Except.error (DevErr.featureNotSupported Feature.bufferDeviceAddress)
      else
        let requested3 := requested2.erase Feature.bufferDeviceAddress
        let step4 : Except DevErr (List Ext) :=
          if requested3.contains Feature.displayTiming then
            require_ext pd.supported_extensions exts1 Ext.googleDisplayTiming
          else Except.ok exts1
        match step4 with
        | Except.error e => Except.error e
        | Except.ok exts4 =>
          Except.ok ⟨sbl, bda, sbl || bda, sbl, bda, exts4,
            requested3.erase Feature.displayTiming⟩

/-- Duplicate-block suppression and attachment (physical_device.rs:140-159): with
native Vulkan 1.2 only the native tier-2 block may be attached; without it only the
extension-equivalent blocks, each validating its extension as required first.  Push
order is `v1_2`, `sbl`, `bda`, as in the source. -/
def attachBlocks (vk12 : Bool) (pd : PhysInfo) (r : FeatureResolution) :
    Except DevErr (List Ext × List FeatureBlock) :=
  let include_v1_2 := if vk12 then r.include_v1_2 else false
  let include_sbl := if vk12 then false else r.include_sbl
  let include_bda := if vk12 then false else r.include_bda
  let blocks0 : List FeatureBlock :=
    if include_v1_2 then [FeatureBlock.v12 r.features_sbl r.features_bda] else []
  if include_sbl then
    match require_ext pd.supported_extensions r.extensions Ext.extScalarBlockLayout with
    | Except.error e => Except.error e
    | Except.ok exts1 =>
      let blocks1 := blocks0 ++ [FeatureBlock.sbl r.features_sbl]
      if include_bda then
        match require_ext pd.supported_extensions exts1 Ext.khrBufferDeviceAddress with
        | Except.error e => Except.error e
        | Except.ok exts2 => Except.ok (exts2, blocks1 ++ [FeatureBlock.bda r.features_bda])
      else Except.ok (exts1, blocks1)
  else
    if include_bda then
      match require_ext pd.supported_extensions r.extensions Ext.khrBufferDeviceAddress with
      | Except.error e => Except.error e
      | Except.ok exts2 => Except.ok (exts2, blocks0 ++ [FeatureBlock.bda r.features_bda])
    else Except.ok (r.extensions, blocks0)

/-- The unresolved-features guard (physical_device.rs:161-170): fail when any requested
feature is left after the pass, reporting the whole remaining set in one error. -/
def ensureAllResolved (remaining : List Feature) : Except DevErr Unit :=
  if remaining.isEmpty then Except.ok ()
  else Except.error (DevErr.unresolvedFeatures remaining)

/-- `PhysicalDevice::create_device` (physical_device.rs:39-180), embedded up to the
native `vkCreateDevice` call: queue assembly, feature resolution, duplicate-block
suppression and attachment, then the unresolved-features guard.  `vk12` is
`graphics.vk1_2()`: whether the instance natively supports Vulkan 1.2. -/
def create_device (vk12 : Bool) (pd : PhysInfo) (features : List Feature)
    (queues : List (Nat × Nat)) : Except DevErr DeviceCreateInfo :=
  match buildQueues pd.queue_families [] queues with
  | Except.error e => Except.error e
  | Except.ok qinfos =>
    match resolveFeatures pd features with
    | Except.error e => Except.error e
    | Except.ok r =>
      match attachBlocks vk12 pd r with
      | Except.error e => Except.error e
      | Except.ok exb =>
        match ensureAllResolved r.remaining with
        | Except.error e => Except.error e
        | Except.ok _ => Except.ok ⟨qinfos, exb.1, exb.2⟩

theorem require_ext_from_empty {supported : List Ext} {e : Ext} {st : List Ext}
    (h : require_ext supported [] e = Except.ok st) : st = [] := by
  unfold require_ext at h
  split at h
  · simp only [List.contains, List.elem, Except.ok.injEq] at h
    exact h.symm
  · cases h

theorem create_device_parts {vk12 : Bool} {pd : PhysInfo} {features : List Feature}
    {queues : List (Nat × Nat)} {req : DeviceCreateInfo}
    (h : create_device vk12 pd features queues = Except.ok req) :
    ∃ r exb, resolveFeatures pd features = Except.ok r ∧
      attachBlocks vk12 pd r = Except.ok exb ∧
      req.pushed_blocks = exb.2 ∧ req.enabled_extensions = exb.1 := by
  unfold create_device at h
  rcases hq : buildQueues pd.queue_families [] queues with e | qinfos
  · rw [hq] at h; dsimp only at h; cases h
  rw [hq] at h; dsimp only at h
  rcases hr : resolveFeatures pd features with e | r
  · rw [hr] at h; dsimp only at h; cases h
  rw [hr] at h; dsimp only at h
  rcases ha : attachBlocks vk12 pd r with e | exb
  · rw [ha] at h; dsimp only at h; cases h
  rw [ha] at h; dsimp only at h
  rcases he : ensureAllResolved r.remaining with e | u
  · rw [he] at h; dsimp only at h; cases h
  rw [he] at h; dsimp only at h
  injection h with h2
  refine ⟨r, exb, rfl, ha, by rw [← h2], by rw [← h2]⟩

theorem attachBlocks_true_eq (pd : PhysInfo) (r : FeatureResolution) :
    attachBlocks true pd r = Except.ok (r.extensions,
      if r.include_v1_2 then [FeatureBlock.v12 r.features_sbl r.features_bda]
      else []) := by
  unfold attachBlocks
  rfl

theorem attachBlocks_false_eq (pd : PhysInfo) (r : FeatureResolution) :
    attachBlocks false pd r =
      (if r.include_sbl then
        match require_ext pd.supported_extensions r.extensions
            Ext.extScalarBlockLayout with
        | Except.error e => Except.error e
        | Except.ok exts1 =>
          if r.include_bda then
            match require_ext pd.supported_extensions exts1
                Ext.khrBufferDeviceAddress with
            | Except.error e => Except.error e
            | Except.ok exts2 =>
              Except.ok (exts2,
                [FeatureBlock.sbl r.features_sbl, FeatureBlock.bda r.features_bda])
          else Except.ok (exts1, [FeatureBlock.sbl r.features_sbl])
      else
        if r.include_bda then
          match require_ext pd.supported_extensions r.extensions
              Ext.khrBufferDeviceAddress with
          | Except.error e => Except.error e
          | Except.ok exts2 => Except.ok (exts2, [FeatureBlock.bda r.features_bda])
        else Except.ok (r.extensions, [])) := by
  unfold attachBlocks
  rfl

theorem attachBlocks_native {pd : PhysInfo} {r : FeatureResolution}
    {exb : List Ext × List FeatureBlock}
    (h : attachBlocks true pd r = Except.ok exb) :
    exb.2 = [] ∨ ∃ b1 b2, exb.2 = [FeatureBlock.v12 b1 b2] := by
  rw [attachBlocks_true_eq] at h
  injection h with h2
  by_cases hv : r.include_v1_2 = true
  · rw [if_pos hv] at h2
    exact Or.inr ⟨r.features_sbl, r.features_bda, by rw [← h2]⟩
  · rw [if_neg hv] at h2
    exact Or.inl (by rw [← h2])

theorem attachBlocks_extension_path {pd : PhysInfo} {r : FeatureResolution}
    {exb : List Ext × List FeatureBlock}
    (h : attachBlocks false pd r = Except.ok exb) :
    ∀ b1 b2 : Bool, FeatureBlock.v12 b1 b2 ∉ exb.2 := by
  rw [attachBlocks_false_eq] at h
  intro b1 b2
  split at h
  · split at h
    · cases h
    · split at h
      · split at h
        · cases h
        · injection h with h2
          rw [← h2]
          simp
      · injection h with h2
        rw [← h2]
        simp
  · split at h
    · split at h
      · cases h
      · injection h with h2
        rw [← h2]
        simp
    · injection h with h2
      rw [← h2]
      simp

theorem attachBlocks_extensions {vk12 : Bool} {pd : PhysInfo} {r : FeatureResolution}
    {exb : List Ext × List FeatureBlock} (hre : r.extensions = [])
    (ha : attachBlocks vk12 pd r = Except.ok exb) : exb.1 = [] := by
  cases vk12 with
  | true =>
    rw [attachBlocks_true_eq] at ha
    injection ha with h2
    rw [← h2]
    exact hre
  | false =>
    rw [attachBlocks_false_eq] at ha
    split at ha
    · rcases hq1 : require_ext pd.supported_extensions r.extensions
          Ext.extScalarBlockLayout with e1 | exts1
      · rw [hq1] at ha
        cases ha
      · rw [hq1] at ha
        dsimp only at ha
        have hx1 : exts1 = [] := by
          rw [hre] at hq1
          exact require_ext_from_empty hq1
        split at ha
        · rcases hq2 : require_ext pd.supported_extensions exts1
              Ext.khrBufferDeviceAddress with e2 | exts2
          · rw [hq2] at ha
            cases ha
          · rw [hq2] at ha
            injection ha with h2
            have hx2 : exts2 = [] := by
              rw [hx1] at hq2
              exact require_ext_from_empty hq2
            rw [← h2]
            exact hx2
        · injection ha with h2
          rw [← h2]
          exact hx1
    · split at ha
      · rcases hq2 : require_ext pd.supported_extensions r.extensions
            Ext.khrBufferDeviceAddress with e2 | exts2
        · rw [hq2] at ha
          cases ha
        · rw [hq2] at ha
          injection ha with h2
          have hx2 : exts2 = [] := by
            rw [hre] at hq2
            exact require_ext_from_empty hq2
          rw [← h2]
          exact hx2
      · injection ha with h2
        rw [← h2]
        exact hre

theorem resolveFeatures_spec {pd : PhysInfo} {features : List Feature}
    {r : FeatureResolution} (h : resolveFeatures pd features = Except.ok r) :
    r.remaining = [] ∧ r.extensions = [] := by
  unfold resolveFeatures at h
  dsimp only at h
  split at h
  · cases h
  · rename_i exts1 heq1
    have hexts1 : exts1 = [] := by
      split at heq1
      · exact require_ext_from_empty heq1
      · injection heq1 with hx
        exact hx.symm
    split at h
    · cases h
    · split at h
      · cases h
      · split at h
        · cases h
        · rename_i exts4 heq4
          have hexts4 : exts4 = [] := by
            split at heq4
            · subst hexts1
              exact require_ext_from_empty heq4
            · injection heq4 with hx
              rw [← hx, hexts1]
          injection h with h2
          constructor
          · rw [← h2]
            show ((((features.dedup.erase Feature.surfacePresentation).erase
                Feature.scalarBlockLayout).erase Feature.bufferDeviceAddress).erase
                Feature.displayTiming) = []
            refine List.eq_nil_iff_forall_not_mem.mpr ?_
            intro f hf
            have hnd : features.dedup.Nodup := List.nodup_dedup features
            cases f with
            | surfacePresentation =>
              have h1 := List.erase_subset _ _ (List.erase_subset _ _ (List.erase_subset _ _ hf))
              exact ((hnd.mem_erase_iff).mp h1).1 rfl
            | scalarBlockLayout =>
              have h1 := List.erase_subset _ _ (List.erase_subset _ _ hf)
              exact (((hnd.erase _).mem_erase_iff).mp h1).1 rfl
            | bufferDeviceAddress =>
              have h1 := List.erase_subset _ _ hf
              exact ((((hnd.erase _).erase _).mem_erase_iff).mp h1).1 rfl
            | displayTiming =>
              exact (((((hnd.erase _).erase _).erase _).mem_erase_iff).mp hf).1 rfl
          · rw [← h2]
            exact hexts4

/-- **C5.** Duplicate-block suppression: when the instance natively supports Vulkan 1.2
(`vk12 = true`), every feature block attached to a successful creation request is the
single native tier-2 block — the extension-equivalent blocks are suppressed, so at most
one block is attached; without native 1.2 the tier-2 block is never attached (only the
extension-equivalent blocks are).  In particular, requesting both ScalarBlockLayout and
BufferDeviceAddress — two features mapping to the same native tier-2 block — on
native-1.2 hardware with both bits set attaches exactly one feature block. -/
theorem create_device_deduplicates_feature_blocks :
    (∀ (pd : PhysInfo) (features : List Feature) (queues : List (Nat × Nat))
        (req : DeviceCreateInfo),
      create_device true pd features queues = Except.ok req →
      req.pushed_blocks = [] ∨
        ∃ b1 b2, req.pushed_blocks = [FeatureBlock.v12 b1 b2]) ∧
    (∀ (pd : PhysInfo) (features : List Feature) (queues : List (Nat × Nat))
        (req : DeviceCreateInfo) (b1 b2 : Bool),
      create_device false pd features queues = Except.ok req →
      FeatureBlock.v12 b1 b2 ∉ req.pushed_blocks) ∧
    create_device true ⟨[], true, true, []⟩
        [Feature.scalarBlockLayout, Feature.bufferDeviceAddress] [] =
      Except.ok ⟨[], [], [FeatureBlock.v12 true true]⟩ := by
  refine ⟨?_, ?_, by rfl⟩
  · intro pd features queues req h
    obtain ⟨r, exb, hr, ha, hb, hx⟩ := create_device_parts h
    rw [hb]
    exact attachBlocks_native ha
  · intro pd features queues req b1 b2 h
    obtain ⟨r, exb, hr, ha, hb, hx⟩ := create_device_parts h
    rw [hb]
    exact attachBlocks_extension_path ha b1 b2

/-- Witness for C5: the two deduplication directions at concrete feature requests —
native 1.2 with ScalarBlockLayout requested yields only the tier-2 block; without
native 1.2 the same request yields the extension block and no tier-2 block. -/
theorem create_device_deduplicates_feature_blocks_witness :
    ((⟨[], [], [FeatureBlock.v12 true false]⟩ : DeviceCreateInfo).pushed_blocks = [] ∨
      ∃ b1 b2, (⟨[], [], [FeatureBlock.v12 true false]⟩ :
          DeviceCreateInfo).pushed_blocks = [FeatureBlock.v12 b1 b2]) ∧
      FeatureBlock.v12 true false ∉
        (⟨[], [], [FeatureBlock.sbl true]⟩ : DeviceCreateInfo).pushed_blocks :=
  ⟨create_device_deduplicates_feature_blocks.1 ⟨[], true, true, []⟩
      [Feature.scalarBlockLayout] [] ⟨[], [], [FeatureBlock.v12 true false]⟩ rfl,
    create_device_deduplicates_feature_blocks.2.1
      ⟨[Ext.extScalarBlockLayout, Ext.khrBufferDeviceAddress], true, true, []⟩
      [Feature.scalarBlockLayout] [] ⟨[], [], [FeatureBlock.sbl true]⟩ true false rfl⟩

/-- **C6.** The unresolved-features guard of `create_device` (physical_device.rs:
161-170) fails whenever features remain after the single resolution pass, and its error
carries the whole remaining set — all unresolved names together, not just the first.
Complementarily, the resolution pass of the current four-variant feature enum always
resolves every requested feature, so a successful pass leaves nothing unresolved. -/
theorem create_device_reports_all_unresolved_features :
    (∀ remaining : List Feature, remaining ≠ [] →
      ensureAllResolved remaining =
        Except.error (DevErr.unresolvedFeatures remaining)) ∧
    (∀ (pd : PhysInfo) (features : List Feature) (r : FeatureResolution),
      resolveFeatures pd features = Except.ok r → r.remaining = []) := by
  constructor
  · intro remaining hne
    unfold ensureAllResolved
    rw [if_neg (by simpa using hne)]
  · intro pd features r h
    exact (resolveFeatures_spec h).1

/-- Witness for C6: the guard on the two-element unresolved set reports both names; the
resolution pass on a concrete request leaves nothing unresolved. -/
theorem create_device_reports_all_unresolved_features_witness :
    ensureAllResolved [Feature.bufferDeviceAddress, Feature.scalarBlockLayout] =
        Except.error (DevErr.unresolvedFeatures
          [Feature.bufferDeviceAddress, Feature.scalarBlockLayout]) ∧
      (⟨true, true, true, true, true, [], []⟩ : FeatureResolution).remaining = [] :=
  ⟨create_device_reports_all_unresolved_features.1
      [Feature.bufferDeviceAddress, Feature.scalarBlockLayout] (by intro h; cases h),
    create_device_reports_all_unresolved_features.2
      ⟨[], true, true, []⟩
      [Feature.scalarBlockLayout, Feature.bufferDeviceAddress]
      ⟨true, true, true, true, true, [], []⟩ rfl⟩

theorem foldlM_require_ext_empty {supported : List Ext} :
    ∀ (es : List Ext) (st2 : List Ext),
      List.foldlM (require_ext supported) [] es = Except.ok st2 → st2 = [] := by
  intro es
  induction es with
  | nil =>
    intro st2 h
    simp only [List.foldlM] at h
    injection h with h2
    exact h2.symm
  | cons e es ih =>
    intro st2 h
    rw [List.foldlM_cons] at h
    rcases hre : require_ext supported [] e with e2 | st1
    · rw [hre] at h
      cases h
    · rw [hre] at h
      have h1 := require_ext_from_empty hre
      subst h1
      exact ih st2 h

/-- **C10.** The `require_ext` helper appends an extension name only when the
enabled-extensions list already contains it (physical_device.rs:88), so starting from
the empty list no sequence of successful `require_ext` calls ever adds any extension;
consequently every successfully assembled device-creation request carries an empty
enabled-extensions list, even when supported extensions were validated as required. -/
theorem require_ext_never_adds_extensions :
    (∀ (supported es st2 : List Ext),
      List.foldlM (require_ext supported) [] es = Except.ok st2 → st2 = []) ∧
    (∀ (vk12 : Bool) (pd : PhysInfo) (features : List Feature)
        (queues : List (Nat × Nat)) (req : DeviceCreateInfo),
      create_device vk12 pd features queues = Except.ok req →
      req.enabled_extensions = []) := by
  constructor
  · intro supported es st2 h
    exact foldlM_require_ext_empty es st2 h
  · intro vk12 pd features queues req h
    obtain ⟨r, exb, hr, ha, hb, hx⟩ := create_device_parts h
    rw [hx]
    exact attachBlocks_extensions (resolveFeatures_spec hr).2 ha

/-- Witness for C10: a successful `require_ext` sequence over a supported extension
leaves the list empty, and a concrete successful `create_device` that validated the
swapchain extension still carries no enabled extensions. -/
theorem require_ext_never_adds_extensions_witness :
    (List.foldlM (require_ext [Ext.khrSwapchain]) []
        [Ext.khrSwapchain, Ext.khrSwapchain] = Except.ok ([] : List Ext) →
      ([] : List Ext) = []) ∧
      (⟨[], [], []⟩ : DeviceCreateInfo).enabled_extensions = [] :=
  ⟨require_ext_never_adds_extensions.1 [Ext.khrSwapchain]
      [Ext.khrSwapchain, Ext.khrSwapchain] [],
    require_ext_never_adds_extensions.2 true ⟨[Ext.khrSwapchain], false, false, []⟩
      [Feature.surfacePresentation] [] ⟨[], [], []⟩ rfl⟩

end Tron
